import Mathlib

/-!
# Verification of the cxsecurity-crawler fetch-and-extract core

This file gives a shallow embedding, in Lean 4, of the core of the
`scagogogo/cxsecurity-crawler` Go repository: the retrying HTTP page
fetcher (`pkg/crawler/client.go`), the HTML extraction engine
(`pkg/crawler/list_parser.go`, `detail_parser.go`, `cve_parser.go`, the
author-page parser), and the search facade
(`Crawler.SearchVulnerabilities` / `SearchVulnerabilitiesAdvanced`).

HTML documents are modelled as flat node tables (document order, parent
links), mirroring the parsed DOM that `goquery.NewDocumentFromReader`
hands to the extractors; the `goquery` / `net/html` parsing step itself
is an external library call and never fails on a string reader, so the
extractor embeddings take both the raw text (for the blank-input check)
and the already-parsed document.  CSS selector evaluation, the handful
of regular expressions used by the source, Go `strings` helpers,
`time.Parse` for the date layouts the source uses, and
`strconv`/`url.QueryEscape` are implemented as executable Lean
functions faithful to the Go behaviour on the inputs in scope.
-/

namespace CxCrawler

/-! ## Go `strings` helpers over `List Char` -/

/-- Whitespace class used by Go `strings.TrimSpace` and `\s` in RE2
(ASCII part: space, tab, newline, vertical tab, form feed, carriage return). -/
def goIsSpace (c : Char) : Bool :=
  c = ' ' || c = '\t' || c = '\n' || c = '\x0b' || c = '\x0c' || c = '\r'

/-- `strings.TrimSpace` (ASCII whitespace). -/
def goTrim (s : String) : String :=
  ⟨(s.data.dropWhile goIsSpace).reverse.dropWhile goIsSpace |>.reverse⟩

/-- Does `l` start with `pat`? -/
def listStarts : List Char → List Char → Bool
  | [], _ => true
  | _ :: _, [] => false
  | p :: ps, c :: cs => p = c && listStarts ps cs

/-- `strings.HasPrefix`. -/
def goHasPre (s pat : String) : Bool :=
  listStarts pat.data s.data

/-- Does `l` contain `pat` as a contiguous sublist? -/
def listHasSub (pat : List Char) : List Char → Bool
  | [] => listStarts pat []
  | c :: cs => listStarts pat (c :: cs) || listHasSub pat cs

/-- `strings.Contains`. -/
def goContains (s pat : String) : Bool :=
  listHasSub pat.data s.data

/-- First index at which `pat` occurs in `l`, if any. -/
def listIdxOfSub (pat : List Char) : List Char → Option Nat
  | [] => if listStarts pat [] then some 0 else none
  | c :: cs =>
    if listStarts pat (c :: cs) then some 0
    else (listIdxOfSub pat cs).map (· + 1)

/-- `strings.Index` (as an option; Go returns `-1` when absent). -/
def goIndex (s pat : String) : Option Nat :=
  listIdxOfSub pat.data s.data

/-- Drop the first `n` characters. -/
def strDrop (s : String) (n : Nat) : String :=
  ⟨s.data.drop n⟩

/-- Take the first `n` characters. -/
def strTake (s : String) (n : Nat) : String :=
  ⟨s.data.take n⟩

/-- The prefix of `s` up to (excluding) the first occurrence of byte `c`;
the whole string when `c` is absent.  Mirrors slicing with
`strings.IndexByte`. -/
def strUntilChar (s : String) (c : Char) : String :=
  ⟨s.data.takeWhile (fun x => x ≠ c)⟩

/-- `strings.TrimPrefix`. -/
def goTrimPre (s pat : String) : String :=
  if goHasPre s pat then strDrop s pat.data.length else s

/-- `strings.Trim(s, "()")`: strip leading and trailing parens. -/
def goTrimParens (s : String) : String :=
  let cut : Char → Bool := fun c => c = '(' || c = ')'
  ⟨(s.data.dropWhile cut).reverse.dropWhile cut |>.reverse⟩

/-- ASCII `strings.ToUpper`. -/
def goToUpper (s : String) : String :=
  ⟨s.data.map Char.toUpper⟩

/-- Whitespace-field splitter (kept structural so proofs can evaluate
it): accumulates the current token reversed. -/
def fieldsGo : List Char → List Char → List (List Char)
  | cur, [] => if cur.isEmpty then [] else [cur.reverse]
  | cur, c :: cs =>
    if goIsSpace c then
      if cur.isEmpty then fieldsGo [] cs else cur.reverse :: fieldsGo [] cs
    else fieldsGo (c :: cur) cs

/-- Split on ASCII whitespace, dropping empty fields (`strings.Fields`,
used for the whitespace-separated HTML `class` attribute tokens). -/
def classTokens (s : String) : List String :=
  (fieldsGo [] s.data).map (fun l => ⟨l⟩)

/-- Split on a single separator character (the `strings.Split` shape
`time.Parse` needs for the fixed layouts used here). -/
def splitOnChar (c : Char) : List Char → List (List Char)
  | [] => [[]]
  | x :: xs =>
    match splitOnChar c xs with
    | [] => [[x]]
    | h :: t => if x = c then [] :: h :: t else (x :: h) :: t

/-- Split a string on a separator character. -/
def strSplit (s : String) (c : Char) : List String :=
  (splitOnChar c s.data).map (fun l => ⟨l⟩)

/-! ## Decimal parsing and formatting (`strconv`, `fmt`) -/

/-- Value of a digit character. -/
def digitVal (c : Char) : Nat := c.toNat - '0'.toNat

/-- All characters are ASCII digits, and there is at least one. -/
def allDigits (l : List Char) : Bool :=
  match l with
  | [] => false
  | _ => l.all Char.isDigit

/-- Parse a nonempty digit string as a `Nat` (`strconv.Atoi` on the
digit-only captures produced by the `\d+` regex groups in the source). -/
def digitsToNat (l : List Char) : Nat :=
  l.foldl (fun acc c => acc * 10 + digitVal c) 0

/-- `strconv.ParseFloat` on the `[\d.]+` captures of the CVSS score
pattern, as an exact rational; `none` models a parse error (Go then
leaves the score at `0`). -/
def parseGoFloat (s : String) : Option ℚ :=
  let l := s.data
  if l.all (fun c => c.isDigit || c = '.') then
    match l.filter (fun c => c = '.') with
    | [] => if allDigits l then some ((digitsToNat l : ℤ) : ℚ) else none
    | [_] =>
      let ip := l.takeWhile (fun c => c ≠ '.')
      let fp := (l.dropWhile (fun c => c ≠ '.')).drop 1
      if ip.isEmpty && fp.isEmpty then none
      else some (((digitsToNat ip : ℤ) : ℚ)
        + ((digitsToNat fp : ℤ) : ℚ) / ((10 ^ fp.length : ℕ) : ℚ))
    | _ => none
  else none

/-- Zero-pad a natural number to `w` digits (Go `time.Format` padding). -/
def padNat (w n : Nat) : String :=
  let s := toString n
  ⟨List.replicate (w - s.data.length) '0'⟩ ++ s

/-! ## Calendar dates (`time.Time` restricted to dates, as the source uses) -/

/-- A Go `time.Time` as the extractors use it: a calendar date.  The Go
zero time is January 1 of year 1. -/
structure GoDate where
  year : Nat
  month : Nat
  day : Nat
  deriving DecidableEq, Repr

/-- The Go zero time (`time.Time{}.IsZero()`). -/
def zeroDate : GoDate := ⟨1, 1, 1⟩

/-- Go leap-year rule. -/
def isLeap (y : Nat) : Bool :=
  y % 4 = 0 && (y % 100 ≠ 0 || y % 400 = 0)

/-- Days in a month, as `time.Parse` uses for its day-range check. -/
def daysIn (y m : Nat) : Nat :=
  if m = 2 then (if isLeap y then 29 else 28)
  else if m = 4 || m = 6 || m = 9 || m = 11 then 30
  else 31

/-- Range check `time.Parse` applies to a parsed year/month/day triple. -/
def validYMD (y m d : Nat) : Bool :=
  1 ≤ m && m ≤ 12 && 1 ≤ d && d ≤ daysIn y m

/-- Exactly-two-digit field (layouts `01`, `02`). -/
def twoDigits (l : List Char) : Option Nat :=
  match l with
  | [a, b] => if a.isDigit && b.isDigit then some (digitVal a * 10 + digitVal b) else none
  | _ => none

/-- Exactly-four-digit field (layout `2006`). -/
def fourDigits (l : List Char) : Option Nat :=
  match l with
  | [a, b, c, d] =>
    if a.isDigit && b.isDigit && c.isDigit && d.isDigit then
      some (digitsToNat [a, b, c, d])
    else none
  | _ => none

/-- One-or-two-digit field (layouts `2`, `1`). -/
def one2Digits (l : List Char) : Option Nat :=
  match l with
  | [a] => if a.isDigit then some (digitVal a) else none
  | [a, b] => if a.isDigit && b.isDigit then some (digitVal a * 10 + digitVal b) else none
  | _ => none

/-- Build a date after `time.Parse` style validation. -/
def mkDate (y m d : Nat) : Option GoDate :=
  if validYMD y m d then some ⟨y, m, d⟩ else none

/-- `time.Parse("2006-01-02", s)`. -/
def parseYMDdash (s : String) : Option GoDate :=
  match strSplit s '-' with
  | [ys, ms, ds] => do
    let y ← fourDigits ys.data
    let m ← twoDigits ms.data
    let d ← twoDigits ds.data
    mkDate y m d
  | _ => none

/-- `time.Parse("02.01.2006", s)`. -/
def parseDMYdot (s : String) : Option GoDate :=
  match strSplit s '.' with
  | [ds, ms, ys] => do
    let d ← twoDigits ds.data
    let m ← twoDigits ms.data
    let y ← fourDigits ys.data
    mkDate y m d
  | _ => none

/-- `time.Parse("2.1.2006", s)`. -/
def parseDMYdotShort (s : String) : Option GoDate :=
  match strSplit s '.' with
  | [ds, ms, ys] => do
    let d ← one2Digits ds.data
    let m ← one2Digits ms.data
    let y ← fourDigits ys.data
    mkDate y m d
  | _ => none

/-- `time.Parse("2006.01.02", s)`. -/
def parseYMDdot (s : String) : Option GoDate :=
  match strSplit s '.' with
  | [ys, ms, ds] => do
    let y ← fourDigits ys.data
    let m ← twoDigits ms.data
    let d ← twoDigits ds.data
    mkDate y m d
  | _ => none

/-- `time.Parse("01/02/2006", s)`. -/
def parseMDYslash (s : String) : Option GoDate :=
  match strSplit s '/' with
  | [ms, ds, ys] => do
    let m ← twoDigits ms.data
    let d ← twoDigits ds.data
    let y ← fourDigits ys.data
    mkDate y m d
  | _ => none

/-- Month number from a three-letter English abbreviation. -/
def monthFromAbbr (s : String) : Option Nat :=
  (["Jan", "Feb", "Mar", "Apr", "May", "Jun",
    "Jul", "Aug", "Sep", "Oct", "Nov", "Dec"].indexOf? s).map (· + 1)

/-- Month number from a full English month name. -/
def monthFromName (s : String) : Option Nat :=
  (["January", "February", "March", "April", "May", "June", "July",
    "August", "September", "October", "November", "December"].indexOf? s).map (· + 1)

/-- Day field immediately followed by the literal comma of the
`Jan 2, 2006` layouts. -/
def dayComma (l : List Char) : Option Nat :=
  match l.reverse with
  | ',' :: rest => one2Digits rest.reverse
  | _ => none

/-- `time.Parse("Jan 2, 2006", s)`. -/
def parseMonAbbr (s : String) : Option GoDate :=
  match strSplit s ' ' with
  | [ms, ds, ys] => do
    let m ← monthFromAbbr ms
    let d ← dayComma ds.data
    let y ← fourDigits ys.data
    mkDate y m d
  | _ => none

/-- `time.Parse("January 2, 2006", s)`. -/
def parseMonFull (s : String) : Option GoDate :=
  match strSplit s ' ' with
  | [ms, ds, ys] => do
    let m ← monthFromName ms
    let d ← dayComma ds.data
    let y ← fourDigits ys.data
    mkDate y m d
  | _ => none

/-- Try a list of layouts in order; the first success wins, otherwise
the previous value (the extractors start from the zero time) is kept. -/
def tryFormats (fmts : List (String → Option GoDate)) (s : String) (dflt : GoDate) : GoDate :=
  match fmts with
  | [] => dflt
  | f :: fs =>
    match f s with
    | some d => d
    | none => tryFormats fs s dflt

/-- `Format("2006-01-02")`. -/
def fmtYMD (d : GoDate) : String :=
  padNat 4 d.year ++ "-" ++ padNat 2 d.month ++ "-" ++ padNat 2 d.day

/-! ## Parsed HTML documents

A parsed document (the output of `goquery.NewDocumentFromReader`) is a
flat table of nodes listed in document (pre-order) order, each carrying
a parent link.  A goquery `Selection` is a list of node indices in
document order.  Element tags are stored lowercased, as `net/html`
produces them. -/

/-- One DOM node: an element (tag, attributes) or a text node. -/
structure DomNode where
  isText : Bool
  tag : String
  textVal : String
  attrs : List (String × String)
  parent : Option Nat
  deriving DecidableEq, Repr

/-- A parsed document: nodes in document order with parent links.
Index 0 is the document root node. -/
structure HDoc where
  nodes : List DomNode
  deriving DecidableEq, Repr

/-- Builder syntax for writing concrete documents as trees. -/
inductive HTree where
  | el (tag : String) (attrs : List (String × String)) (kids : List HTree)
  | txt (s : String)
  deriving Repr

mutual

/-- Number of DOM nodes of a tree. -/
def treeSize : HTree → Nat
  | .el _ _ kids => 1 + treesSize kids
  | .txt _ => 1

/-- Number of DOM nodes of a forest. -/
def treesSize : List HTree → Nat
  | [] => 0
  | t :: ts => treeSize t + treesSize ts

end

mutual

/-- Flatten a tree into document-ordered nodes, `i` being the index the
tree's root receives and `p` its parent. -/
def flatten1 (p : Option Nat) (i : Nat) : HTree → List DomNode
  | .el tag attrs kids => ⟨false, tag, "", attrs, p⟩ :: flattenL (some i) (i + 1) kids
  | .txt s => [⟨true, "", s, [], p⟩]

/-- Flatten a forest, assigning consecutive index ranges. -/
def flattenL (p : Option Nat) (i : Nat) : List HTree → List DomNode
  | [] => []
  | t :: ts => flatten1 p i t ++ flattenL p (i + treeSize t) ts

end

/-- Build a document from the forest under the (implicit) document root. -/
def mkDoc (kids : List HTree) : HDoc :=
  ⟨⟨false, "#document", "", [], none⟩ :: flattenL (some 0) 1 kids⟩

/-- The node at index `i`. -/
def nodeAt (d : HDoc) (i : Nat) : Option DomNode :=
  d.nodes.get? i

/-- Parent index of node `i`. -/
def parentOf (d : HDoc) (i : Nat) : Option Nat :=
  (nodeAt d i).bind (·.parent)

/-- Ancestor chain of `i`, nearest first; fuel-bounded by the index
itself, which suffices because a parent always precedes its child in
document order (enforced by the `j < i` guard). -/
def ancChain (d : HDoc) : Nat → Nat → List Nat
  | 0, _ => []
  | fuel + 1, i =>
    match parentOf d i with
    | none => []
    | some j => if j < i then j :: ancChain d fuel j else []

/-- Ancestors of `i`, nearest first. -/
def ancestors (d : HDoc) (i : Nat) : List Nat :=
  ancChain d i i

/-- Is `a` a strict ancestor of `i`? -/
def isAncestor (d : HDoc) (a i : Nat) : Bool :=
  (ancestors d i).contains a

/-- All node indices, in document order. -/
def allIdx (d : HDoc) : List Nat :=
  List.range d.nodes.length

/-- Text content of the subtree at `i` (`Selection.Text` per node):
concatenation of all text nodes at or below `i`, in document order. -/
def textOf (d : HDoc) (i : Nat) : String :=
  ((allIdx d).filter (fun j => j = i || isAncestor d i j)).foldl
    (fun acc j =>
      match nodeAt d j with
      | some n => if n.isText then acc ++ n.textVal else acc
      | none => acc) ""

/-- First value of attribute `k` on element node `n` (`net/html` keeps
the first occurrence). -/
def attrOf (n : DomNode) (k : String) : Option String :=
  (n.attrs.find? (fun p => p.1 = k)).map (·.2)

/-- A simple CSS selector: optional tag, required class tokens,
`[k='v']` equalities, `[k*='v']` substring tests, and a `:contains`
text test, all conjunctive. -/
structure SSel where
  tag : Option String
  classes : List String
  attrEq : List (String × String)
  attrSub : List (String × String)
  textHas : Option String
  deriving Repr

/-- Selector with only a tag. -/
def selTag (t : String) : SSel := ⟨some t, [], [], [], none⟩

/-- Selector with a tag and one class. -/
def selTagCls (t c : String) : SSel := ⟨some t, [c], [], [], none⟩

/-- Selector with only a class. -/
def selCls (c : String) : SSel := ⟨none, [c], [], [], none⟩

/-- Does node `i` match a simple selector? -/
def matchesSSel (d : HDoc) (s : SSel) (i : Nat) : Bool :=
  match nodeAt d i with
  | none => false
  | some n =>
    !n.isText &&
    (match s.tag with | none => true | some t => n.tag = t) &&
    (s.classes.all (fun c => ((attrOf n "class").getD "" |> classTokens).contains c)) &&
    (s.attrEq.all (fun p => attrOf n p.1 = some p.2)) &&
    (s.attrSub.all (fun p =>
      match attrOf n p.1 with
      | some v => goContains v p.2
      | none => false)) &&
    (match s.textHas with | none => true | some t => goContains (textOf d i) t)

/-- One step of a compound selector: the combinator linking it to the
part on its left (descendant or direct child). -/
inductive SStep where
  | desc (s : SSel)
  | child (s : SSel)
  deriving Repr

/-- Does node `i` match a compound selector, given right-to-left
(rightmost step first)?  Ancestor requirements are resolved against the
whole document, as cascadia does. -/
def chainMatches (d : HDoc) : List SStep → Nat → Bool
  | [], _ => true
  | [.desc s], i => matchesSSel d s i
  | [.child s], i => matchesSSel d s i
  | .desc s :: rest, i =>
    matchesSSel d s i && (ancestors d i).any (fun a => chainMatches d rest a)
  | .child s :: rest, i =>
    matchesSSel d s i &&
      (match parentOf d i with
       | some p => chainMatches d rest p
       | none => false)

/-- `Selection.Find`: the descendants of the context nodes matching the
compound selector (steps listed left to right), in document order. -/
def selFind (d : HDoc) (ctx : List Nat) (steps : List SStep) : List Nat :=
  (allIdx d).filter (fun j =>
    ctx.any (fun c => isAncestor d c j) && chainMatches d steps.reverse j)

/-- `Selection.Text`. -/
def selText (d : HDoc) (sel : List Nat) : String :=
  sel.foldl (fun acc i => acc ++ textOf d i) ""

/-- `Selection.First`. -/
def selFirst (sel : List Nat) : List Nat :=
  sel.take 1

/-- `Selection.Eq i`. -/
def selEq (sel : List Nat) (i : Nat) : List Nat :=
  (sel.drop i).take 1

/-- `Selection.Attr` with Go's "empty when absent" convention of the
`v, _ :=` call sites. -/
def selAttrD (d : HDoc) (sel : List Nat) (k : String) : String :=
  match sel with
  | [] => ""
  | i :: _ =>
    match nodeAt d i with
    | some n => (attrOf n k).getD ""
    | none => ""

/-- Does `Selection.Attr` report the attribute as present? -/
def selAttrExists (d : HDoc) (sel : List Nat) (k : String) : Bool :=
  match sel with
  | [] => false
  | i :: _ =>
    match nodeAt d i with
    | some n => (attrOf n k).isSome
    | none => false

/-- Insert into a sorted duplicate-free index list. -/
def insSorted (i : Nat) (l : List Nat) : List Nat :=
  match l with
  | [] => [i]
  | j :: rest =>
    if i < j then i :: j :: rest
    else if i = j then j :: rest
    else j :: insSorted i rest

/-- Restore document order and uniqueness after a per-node traversal. -/
def sortDedupIdx (l : List Nat) : List Nat :=
  l.foldr insSorted []

/-- `Selection.Closest`: for each node, the nearest ancestor-or-self
matching the selector. -/
def selClosest (d : HDoc) (sel : List Nat) (s : SSel) : List Nat :=
  sortDedupIdx (sel.filterMap (fun i => (i :: ancestors d i).find? (fun a => matchesSSel d s a)))

/-- `Selection.Parent`. -/
def selParent (d : HDoc) (sel : List Nat) : List Nat :=
  sortDedupIdx (sel.filterMap (fun i => parentOf d i))

/-- Sibling element immediately after `i` (`Selection.Next` per node). -/
def nextSibling (d : HDoc) (i : Nat) : Option Nat :=
  match parentOf d i with
  | none => none
  | some p =>
    ((allIdx d).filter (fun j =>
      i < j && parentOf d j = some p &&
      (match nodeAt d j with | some n => !n.isText | none => false))).head?

/-- `Selection.Next`. -/
def selNext (d : HDoc) (sel : List Nat) : List Nat :=
  sortDedupIdx (sel.filterMap (fun i => nextSibling d i))

/-! ## The regular expressions used by the source

Each pattern is compiled by hand to a leftmost-match scanner, exactly
strong enough for the fixed patterns the source uses. -/

/-- Leftmost match: try the position matcher at every suffix. -/
def scanFirst (f : List Char → Option α) : List Char → Option α
  | [] => f []
  | c :: cs =>
    match f (c :: cs) with
    | some r => some r
    | none => scanFirst f cs

/-- Match `CVE-\d{4}-\d+` anchored at the start of `l`. -/
def cveAt (l : List Char) : Option (List Char) :=
  if listStarts "CVE-".data l then
    let r1 := l.drop 4
    let ys := r1.take 4
    if ys.length = 4 && ys.all Char.isDigit then
      match r1.drop 4 with
      | '-' :: r3 =>
        let ds := r3.takeWhile Char.isDigit
        if ds.isEmpty then none
        else some ("CVE-".data ++ ys ++ '-' :: ds)
      | _ => none
    else none
  else none

/-- `regexp.FindStringSubmatch` for `CVE-\d{4}-\d+` (whole match). -/
def findFirstCVE (s : String) : Option String :=
  (scanFirst cveAt s.data).map (fun l => ⟨l⟩)

/-- Match `CWE-\d+` anchored at the start of `l`. -/
def cweAt (l : List Char) : Option (List Char) :=
  if listStarts "CWE-".data l then
    let ds := (l.drop 4).takeWhile Char.isDigit
    if ds.isEmpty then none else some ("CWE-".data ++ ds)
  else none

/-- `regexp.FindStringSubmatch` for `CWE-\d+` (whole match). -/
def findFirstCWE (s : String) : Option String :=
  (scanFirst cweAt s.data).map (fun l => ⟨l⟩)

/-- Match `LIT\s*=\s*(\d+)` anchored at the start, returning the digit
capture; `lit` is the escaped literal part (`$scope.totalItems` etc.). -/
def scopeNumAt (lit : List Char) (l : List Char) : Option Nat :=
  if listStarts lit l then
    match (l.drop lit.length).dropWhile goIsSpace with
    | '=' :: r2 =>
      let ds := (r2.dropWhile goIsSpace).takeWhile Char.isDigit
      if ds.isEmpty then none else some (digitsToNat ds)
    | _ => none
  else none

/-- First `LIT\s*=\s*(\d+)` capture anywhere in `s`. -/
def findScopeNum (lit s : String) : Option Nat :=
  scanFirst (scopeNumAt lit.data) s.data

/-- The apostrophe character (written by code point to keep the source
free of quote-literal noise). -/
def quoteChar : Char := Char.ofNat 39

/-- Match `window\.open\('([^']*)'` anchored at the start, returning the
capture. -/
def windowOpenAt (l : List Char) : Option (List Char) :=
  let lit := "window.open(".data ++ [quoteChar]
  if listStarts lit l then
    let r := l.drop lit.length
    let cap := r.takeWhile (fun c => c ≠ quoteChar)
    match r.drop cap.length with
    | c :: _ => if c = quoteChar then some cap else none
    | [] => none
  else none

/-- First `window.open('...')` link capture in `s`. -/
def findWindowOpen (s : String) : Option String :=
  (scanFirst windowOpenAt s.data).map (fun l => ⟨l⟩)

/-- Greedy-with-backtracking tail of `([\d.]+)/10`: the longest prefix
of length at most `k` of the class run that is followed by `/10`. -/
def slashTenTry (l : List Char) : Nat → Option (List Char)
  | 0 => none
  | k + 1 =>
    if listStarts "/10".data (l.drop (k + 1)) then some (l.take (k + 1))
    else slashTenTry l k

/-- Match `([\d.]+)/10` anchored at the start, returning the capture. -/
def slashTenAt (l : List Char) : Option (List Char) :=
  let run := l.takeWhile (fun c => c.isDigit || c = '.')
  if run.isEmpty then none else slashTenTry l run.length

/-- First `([\d.]+)/10` capture in `s`. -/
def findSlashTen (s : String) : Option String :=
  (scanFirst slashTenAt s.data).map (fun l => ⟨l⟩)

/-- Shape test for `\d{4}-\d{2}-\d{2}`. -/
def isYMDShape (l : List Char) : Bool :=
  match l with
  | [a, b, c, d, h1, e, f, h2, g, k] =>
    a.isDigit && b.isDigit && c.isDigit && d.isDigit && h1 = '-' &&
    e.isDigit && f.isDigit && h2 = '-' && g.isDigit && k.isDigit
  | _ => false

/-- Match `LIT\s*(\d{4}-\d{2}-\d{2})` anchored at the start, returning
the date capture (`LIT` is `Published:` or `Modified:`). -/
def labeledDateAt (lit : List Char) (l : List Char) : Option (List Char) :=
  if listStarts lit l then
    let r := (l.drop lit.length).dropWhile goIsSpace
    if isYMDShape (r.take 10) then some (r.take 10) else none
  else none

/-- First `LIT\s*(\d{4}-\d{2}-\d{2})` capture in `s`. -/
def findLabeledDate (lit s : String) : Option String :=
  (scanFirst (labeledDateAt lit.data) s.data).map (fun l => ⟨l⟩)

/-- `regexp.FindString` for `\d+`: the leftmost maximal digit run. -/
def findDigitRun (s : String) : Option String :=
  (scanFirst (fun l =>
    let ds := l.takeWhile Char.isDigit
    if ds.isEmpty then none else some ds) s.data).map (fun l => ⟨l⟩)

/-- RE2 `\w` class. -/
def isWordChar (c : Char) : Bool :=
  c.isAlphanum || c = '_'

/-- Match `flags/(\w+)\.png` anchored at the start, returning the capture. -/
def flagsAt (l : List Char) : Option (List Char) :=
  if listStarts "flags/".data l then
    let r := l.drop 6
    let run := r.takeWhile isWordChar
    if run.isEmpty then none
    else if listStarts ".png".data (r.drop run.length) then some run else none
  else none

/-- First `flags/(\w+)\.png` capture in `s`. -/
def findFlagsCode (s : String) : Option String :=
  (scanFirst flagsAt s.data).map (fun l => ⟨l⟩)

/-! ## Canonical records (`pkg/model`, search types of `crawler`) -/

/-- `model.Vulnerability`; the Go zero value has empty strings, nil
tags, false flags and the zero time. -/
structure Vulnerability where
  ID : String := ""
  Date : GoDate := zeroDate
  Title : String := ""
  URL : String := ""
  RiskLevel : String := ""
  CVE : String := ""
  CWE : String := ""
  IsRemote : Bool := false
  IsLocal : Bool := false
  Tags : List String := []
  Author : String := ""
  AuthorURL : String := ""
  deriving DecidableEq, Repr

/-- `model.VulnerabilityList`. -/
structure VulnerabilityList where
  Items : List Vulnerability
  CurrentPage : Nat
  TotalPages : Nat
  deriving DecidableEq, Repr

/-- `model.AffectedSoftware`. -/
structure AffectedSoftware where
  VendorName : String
  VendorURL : String
  ProductName : String
  ProductURL : String
  deriving DecidableEq, Repr

/-- `model.CveDetail`; CVSS scores are exact rationals standing for the
Go `float64` fields (every score the extractor produces is a short
decimal, represented exactly). -/
structure CveDetail where
  CveID : String := ""
  Published : GoDate := zeroDate
  Modified : GoDate := zeroDate
  Description : String := ""
  CweType : String := ""
  CvssBaseScore : ℚ := 0
  CvssImpactScore : ℚ := 0
  CvssExploitScore : ℚ := 0
  ExploitRange : String := ""
  AttackComplexity : String := ""
  Authentication : String := ""
  ConfidentialityImpact : String := ""
  IntegrityImpact : String := ""
  AvailabilityImpact : String := ""
  AffectedSoftware : List AffectedSoftware := []
  References : List String := []
  RelatedVulnerabilities : List Vulnerability := []
  deriving DecidableEq, Repr

/-- `model.AuthorProfile`. -/
structure AuthorProfile where
  ID : String := ""
  Name : String := ""
  Country : String := ""
  CountryCode : String := ""
  ReportedCount : Nat := 0
  Twitter : String := ""
  Website : String := ""
  ZoneH : String := ""
  Description : String := ""
  Vulnerabilities : List Vulnerability := []
  CurrentPage : Nat := 1
  TotalPages : Nat := 1
  deriving DecidableEq, Repr

/-- `crawler.SearchVulnerability`. -/
structure SearchVulnerability where
  ID : String
  Title : String
  URL : String
  Date : String
  RiskLevel : String
  Author : String
  AuthorURL : String
  deriving DecidableEq, Repr

/-- `crawler.SearchResult`. -/
structure SearchResult where
  Keyword : String
  CurrentPage : Nat
  TotalPages : Nat
  SortOrder : String
  PerPage : Int
  Vulnerabilities : List SearchVulnerability
  deriving DecidableEq, Repr

/-! ## URL absolutization (inlined in the extractors) -/

/-- The fixed site origin hard-coded at every absolutization site. -/
def siteOrigin : String := "https://cxsecurity.com"

/-- The URL fix-up the list extractor applies to `url` and `author_url`
(`list_parser.go` lines 130–136, 163–169, 232–238, 292–298): keep an
empty or `http`-prefixed value, prepend the origin to a `/`-rooted
path, and prepend origin plus `/` to anything else. -/
def fixURL (u : String) : String :=
  if u ≠ "" ∧ goHasPre u "http" = false then
    if goHasPre u "/" then siteOrigin ++ u else siteOrigin ++ "/" ++ u
  else u

/-! ## The pagination miner (shared script-scanning block) -/

/-- Selector constants used by the extractors. -/
def sTableStriped : SSel := ⟨some "table", ["table-striped"], [], [], none⟩

/-- The search-page fallback table selector
`table[width='100%'][border='0'][cellpadding='0'][cellspacing='0']`. -/
def sSearchTable : SSel :=
  ⟨some "table", [], [("width", "100%"), ("border", "0"), ("cellpadding", "0"), ("cellspacing", "0")], [], none⟩

/-- `div[ng-controller='PagIt']`. -/
def sPagIt : SSel := ⟨some "div", [], [("ng-controller", "PagIt")], [], none⟩

/-- `a[href*='/author/']`. -/
def sAuthorLink : SSel := ⟨some "a", [], [], [("href", "/author/")], none⟩

/-- One script block's contribution to the mined pagination counters
(`list_parser.go` lines 312–333 and the identical author-parser block):
guarded by a literal `$scope.totalItems` containment test, each counter
is overwritten only when its own assignment pattern matches. -/
def mineScriptStep (d : HDoc) (acc : Nat × Nat × Nat) (i : Nat) : Nat × Nat × Nat :=
  let sc := textOf d i
  if goContains sc "$scope.totalItems" then
    ((findScopeNum "$scope.totalItems" sc).getD acc.1,
     (findScopeNum "$scope.currentPage" sc).getD acc.2.1,
     (findScopeNum "$scope.perPage" sc).getD acc.2.2)
  else acc

/-- The pagination miner: scan every inline script block, starting from
the defaults `totalItems = 0`, `currentPage = 1`, `perPage = 10`. -/
def minePagination (d : HDoc) : Nat × Nat × Nat :=
  (selFind d [0] [.desc (selTag "script")]).foldl (mineScriptStep d) (0, 1, 10)

/-- Total-page computation applied to the mined counters
(`list_parser.go` lines 335–344). -/
def minedTotalPages (t p : Nat) : Nat :=
  if p > 0 && t > 0 then (t + p - 1) / p else 1

/-- Current-page clamp applied to the mined counter. -/
def minedCurrentPage (c : Nat) : Nat :=
  if c < 1 then 1 else c

/-! ## `Parser.ParseListPage` (`pkg/crawler/list_parser.go`) -/

/-- Tag handling for one `span.label` of a standard-layout row
(`list_parser.go` lines 252–285): author-link labels are skipped,
CVE/CWE-shaped labels are promoted to the dedicated fields,
`Remote`/`Local` set the flags, and anything else is appended to
`Tags`. -/
def stdTagStep (d : HDoc) (v : Vulnerability) (tagIdx : Nat) : Vulnerability :=
  if (selFind d [tagIdx] [.desc sAuthorLink]).length ≠ 0 then v
  else
    let tag := goTrim (textOf d tagIdx)
    if tag = "" then v
    else
      match findFirstCVE tag with
      | some m => { v with CVE := m }
      | none =>
        match findFirstCWE tag with
        | some m => { v with CWE := m }
        | none =>
          if tag = "Remote" then { v with IsRemote := true }
          else if tag = "Local" then { v with IsLocal := true }
          else { v with Tags := v.Tags ++ [tag] }

/-- One standard-layout item row (`list_parser.go` lines 216–304);
returns no item when the row has fewer than two cells or an empty
title. -/
def stdRow (d : HDoc) (cur : GoDate) (tr : Nat) : List Vulnerability :=
  let cells := selFind d [tr] [.desc (selTag "td")]
  if cells.length < 2 then []
  else
    let riskLevel := goTrim (selText d (selFind d (selEq cells 0) [.desc (selTagCls "span" "label")]))
    let titleCell := selFind d (selEq cells 1)
      [.desc (selTagCls "div" "row"), .desc (selTagCls "div" "col-md-7"), .desc (selTag "a")]
    let title := goTrim (selText d titleCell)
    let url := fixURL (selAttrD d titleCell "href")
    let base : Vulnerability :=
      { Date := cur, Title := title, URL := url, RiskLevel := riskLevel, Tags := [] }
    let tagIdxs := selFind d (selEq cells 1)
      [.desc (selTagCls "div" "row"), .desc (selTagCls "div" "col-md-5"), .desc (selTagCls "span" "label")]
    let v := tagIdxs.foldl (stdTagStep d) base
    let authorSel := selFind d (selEq cells 1)
      [.desc (selTagCls "div" "row"), .desc (selTagCls "div" "col-md-5"), .desc sAuthorLink]
    let v := { v with
      Author := goTrim (selText d authorSel),
      AuthorURL := fixURL (selAttrD d authorSel "href") }
    if v.Title ≠ "" then [v] else []

/-- Date-header handling (`list_parser.go` lines 204–214): the running
date is replaced when the `thead`'s `tr > th font` text parses under
one of the three layouts. -/
def stdHeaderDate (d : HDoc) (el : Nat) (cur : GoDate) : GoDate :=
  let dateHeader := selText d (selFind d [el]
    [.desc (selTag "tr"), .child (selTag "th"), .desc (selTag "font")])
  tryFormats [parseYMDdash, parseDMYdot, parseMonAbbr] (goTrim dateHeader) cur

/-- One element of the `thead, tbody > tr` traversal. -/
def stdStep (d : HDoc) (acc : GoDate × List Vulnerability) (el : Nat) : GoDate × List Vulnerability :=
  if matchesSSel d (selTag "thead") el then (stdHeaderDate d el acc.1, acc.2)
  else (acc.1, acc.2 ++ stdRow d acc.1 el)

/-- The `thead, tbody > tr` selection under the found tables. -/
def stdElements (d : HDoc) (tbl : List Nat) : List Nat :=
  (allIdx d).filter (fun j =>
    tbl.any (fun c => isAncestor d c j) &&
    (chainMatches d [.desc (selTag "thead")] j ||
     chainMatches d ([.desc (selTag "tbody"), .child (selTag "tr")].reverse) j))

/-- Standard-layout item extraction: a running current date fold over
headers and rows. -/
def stdItems (d : HDoc) (tbl : List Nat) : List Vulnerability :=
  ((stdElements d tbl).foldl (stdStep d) (zeroDate, [])).2

/-- One search-layout row (`list_parser.go` lines 108–197). -/
def searchRow (d : HDoc) (tr : Nat) : List Vulnerability :=
  let cells := selFind d [tr] [.desc (selTag "td")]
  if cells.length < 3 then []
  else
    let riskLevel := goTrim (selText d (selFind d (selEq cells 0) [.desc (selTagCls "span" "label")]))
    let titleCell := selFind d (selEq cells 1) [.desc (selTag "h6"), .desc (selTag "a")]
    let title := goTrim (selText d titleCell)
    let url := fixURL (selAttrD d titleCell "href")
    let dateStr := goTrim (selText d (selFind d (selEq cells 2) [.desc (selTagCls "span" "label")]))
    let date := tryFormats [parseDMYdot, parseYMDdash, parseMDYslash] dateStr zeroDate
    let authorCell := selFind d (selEq cells 3) [.desc (selTag "a")]
    let author := goTrim (selText d authorCell)
    let authorURL := fixURL (selAttrD d authorCell "href")
    let v : Vulnerability :=
      { Date := date, Title := title, URL := url, RiskLevel := riskLevel,
        CVE := (findFirstCVE title).getD "", CWE := (findFirstCWE title).getD "",
        Author := author, AuthorURL := authorURL, Tags := [] }
    if v.Title ≠ "" then [v] else []

/-- Search-layout item extraction: every `tr` under the found tables,
skipping the header row. -/
def searchItems (d : HDoc) (tbl : List Nat) : List Vulnerability :=
  ((selFind d tbl [.desc (selTag "tr")]).drop 1).foldl
    (fun acc tr => acc ++ searchRow d tr) []

/-- The table probe: the striped table, else the attribute-matched
search table. -/
def listTables (d : HDoc) : List Nat :=
  let tbl0 := selFind d [0] [.desc sTableStriped]
  if tbl0.length = 0 then selFind d [0] [.desc sSearchTable] else tbl0

/-- Item extraction under the layout detection (Angular `PagIt`
controller present means search layout). -/
def listItems (d : HDoc) : List Vulnerability :=
  if (selFind d [0] [.desc sPagIt]).length > 0 then searchItems d (listTables d)
  else stdItems d (listTables d)

/-- `Parser.ParseListPage` after the `goquery` parse: table probing,
layout detection, item extraction and pagination mining.  When no table
matches, the initial result is returned early with its Go zero-valued
page counters. -/
def ParseListPageDoc (d : HDoc) : VulnerabilityList :=
  if (listTables d).length = 0 then ⟨[], 0, 0⟩
  else
    let m := minePagination d
    ⟨listItems d, minedCurrentPage m.2.1, minedTotalPages m.1 m.2.2⟩

/-- `Parser.ParseListPage` on raw text: the blank-input check, then
extraction over the externally parsed document `d` (the `goquery`
parse of a string never fails). -/
def ParseListPage (s : String) (d : HDoc) : Except String VulnerabilityList :=
  if goTrim s = "" then .error "HTML content is empty"
  else .ok (ParseListPageDoc d)

/-! ## `Parser.ParseVulnerabilityDetailPage` (`pkg/crawler/detail_parser.go`) -/

/-- `Selection.Find` for a two-way union selector (`"label, span.label"`
and the like). -/
def selFindU (d : HDoc) (ctx : List Nat) (s1 s2 : List SStep) : List Nat :=
  (allIdx d).filter (fun j =>
    ctx.any (fun c => isAncestor d c j) &&
    (chainMatches d s1.reverse j || chainMatches d s2.reverse j))

/-- `.well-sm:contains(LIT)`. -/
def sWellWith (lit : String) : SSel := ⟨none, ["well-sm"], [], [], some lit⟩

/-- The tag de-duplication loop at the end of the detail extractor
(`detail_parser.go` lines 142–154): drop values already seen, keeping
first-occurrence order. -/
def dedupGo (seen : List String) : List String → List String
  | [] => []
  | t :: ts => if t ∈ seen then dedupGo seen ts else t :: dedupGo (t :: seen) ts

/-- `dedup_preserve_order`. -/
def dedupTags (l : List String) : List String :=
  dedupGo [] l

/-- The free-form label collection of the detail extractor
(`detail_parser.go` lines 122–140): wells carrying one of the six known
field markers are skipped; nonempty, non-`N/A`, colon-free label text is
appended. -/
def detailOtherTags (d : HDoc) : List String :=
  (selFind d [0] [.desc (selCls "well-sm")]).foldl (fun acc w =>
    let wellText := textOf d w
    if goContains wellText "CVE:" || goContains wellText "CWE:" ||
       goContains wellText "Local:" || goContains wellText "Remote:" ||
       goContains wellText "Risk:" || goContains wellText "Credit:" then acc
    else
      let labelText := goTrim (selText d
        (selFindU d [w] [.desc (selTag "label")] [.desc (selTagCls "span" "label")]))
      if labelText ≠ "" && labelText ≠ "N/A" && !goContains labelText ":" then
        acc ++ [labelText]
      else acc) []

/-- The `Yes`-flag scan of the `Local:`/`Remote:` wells. -/
def detailYesFlag (d : HDoc) (lit : String) : Bool :=
  (selFind d [0] [.desc (sWellWith lit)]).any (fun w =>
    (selFind d [w] [.desc (selTag "b")]).any (fun b => goTrim (textOf d b) = "Yes"))

/-- The last well text under the date panel that parses under
`2006.01.02` (each loop iteration overwrites the candidate). -/
def detailDateText (d : HDoc) : String :=
  (selFind d [0]
    [.desc (selCls "panel-body"), .desc (selCls "row"),
     .desc ⟨none, ["col-xs-12", "col-md-3"], [], [], none⟩,
     .desc (selCls "well-sm"), .desc (selTag "b")]).foldl
    (fun acc i =>
      let p := goTrim (textOf d i)
      if (parseYMDdot p).isSome then p else acc) ""

/-- `Parser.ParseVulnerabilityDetailPage` after the `goquery` parse. -/
def ParseVulnerabilityDetailPageDoc (d : HDoc) : Vulnerability :=
  let title0 := goTrim (selText d (selFirst (selFind d [0]
    [.desc (selTag "h4"), .child (selTag "b")])))
  let title :=
    if title0 = "" then
      goTrim (selText d (selFirst (selFind d [0]
        [.desc (selCls "panel-body"), .desc (selTag "h4"), .desc (selTag "b")])))
    else title0
  let riskLevel := goTrim (selText d
    (selFind d (selFind d [0] [.desc (sWellWith "Risk:")]) [.desc (selTagCls "span" "label")]))
  let cveText := goTrim (selText d
    (selFind d (selFind d [0] [.desc (sWellWith "CVE:")])
      [.desc ⟨some "a", [], [], [("href", "cveshow")], none⟩]))
  let cve := if cveText ≠ "" then (findFirstCVE cveText).getD cveText else ""
  let cweText := goTrim (selText d
    (selFind d (selFind d [0] [.desc (sWellWith "CWE:")])
      [.desc ⟨some "a", [], [], [("href", "cwe")], none⟩]))
  let cwe := if cweText ≠ "" then (findFirstCWE cweText).getD cweText else ""
  let isLocal := detailYesFlag d "Local:"
  let isRemote := detailYesFlag d "Remote:"
  let dateText := detailDateText d
  let date :=
    if dateText ≠ "" then
      tryFormats [parseYMDdot, parseYMDdash, parseDMYdot, parseMonAbbr, parseMonFull]
        dateText zeroDate
    else zeroDate
  let authorSel := selFind d (selFind d [0] [.desc (sWellWith "Credit:")])
    [.desc ⟨some "a", [], [], [("href", "author")], none⟩]
  let author := if authorSel.length > 0 then goTrim (selText d authorSel) else ""
  let authorURL := if authorSel.length > 0 then selAttrD d authorSel "href" else ""
  { Title := title, RiskLevel := riskLevel, CVE := cve, CWE := cwe,
    IsLocal := isLocal, IsRemote := isRemote, Date := date,
    Author := author, AuthorURL := authorURL,
    Tags := dedupTags (detailOtherTags d) }

/-- `Parser.ParseVulnerabilityDetailPage` on raw text. -/
def ParseVulnerabilityDetailPage (s : String) (d : HDoc) : Except String Vulnerability :=
  if goTrim s = "" then .error "HTML content is empty"
  else .ok (ParseVulnerabilityDetailPageDoc d)

/-! ## `Parser.ParseCveDetailPage` (`pkg/crawler/cve_parser.go`) -/

/-- The `Published:`/`Modified:` scan over `center > b` elements
(`cve_parser.go` lines 32–52): each hit re-parses the parent text and
overwrites the respective date when it parses. -/
def cveDatesStep (d : HDoc) (acc : GoDate × GoDate) (i : Nat) : GoDate × GoDate :=
  let text := textOf d i
  let parentText := selText d (selParent d [i])
  if goContains text "Published:" then
    match (findLabeledDate "Published:" parentText).bind parseYMDdash with
    | some dt => (dt, acc.2)
    | none => acc
  else if goContains text "Modified:" then
    match (findLabeledDate "Modified:" parentText).bind parseYMDdash with
    | some dt => (acc.1, dt)
    | none => acc
  else acc

/-- One CVSS score widget: regex against the label text, then
`ParseFloat` (both failures leave the Go zero value `0`). -/
def cvssScoreOf (s : String) : ℚ :=
  match findSlashTen s with
  | some cap => (parseGoFloat cap).getD 0
  | none => 0

/-- Attribute-table assignment lookup: the Go map keeps the last
assignment for a key. -/
def lastAssign (assigns : List (String × String)) (k : String) : String :=
  ((assigns.reverse.find? (fun p => p.1 = k)).map (·.2)).getD ""

/-- The vendor/product rows of the affected-software table. -/
def affectedRow (d : HDoc) (acc : List AffectedSoftware) (tr : Nat) : List AffectedSoftware :=
  let links := selFind d [tr] [.desc (selTag "td"), .desc (selTag "a")]
  if links.length ≥ 2 then
    let vendorA := selEq links 0
    let productA := selEq links 1
    let vendorName := goTrim (selText d vendorA)
    let productName := goTrim (selText d productA)
    if vendorName ≠ "" && productName ≠ "" then
      acc ++ [⟨vendorName, selAttrD d vendorA "href", productName, selAttrD d productA "href"⟩]
    else acc
  else acc

/-- One related-vulnerability row (`cve_parser.go` lines 163–190); note
the `href` is stored without any absolutization. -/
def cveRelatedRow (d : HDoc) (acc : List Vulnerability) (tr : Nat) : List Vulnerability :=
  let cells := selFind d [tr] [.desc (selTag "td")]
  if cells.length ≥ 4 then
    let riskLevel := goTrim (selText d (selFind d (selEq cells 0) [.desc (selTagCls "span" "label")]))
    let titleA := selFind d (selEq cells 1) [.desc (selTag "a")]
    let title := goTrim (selText d titleA)
    let url := selAttrD d titleA "href"
    let author := goTrim (selText d (selEq cells 2))
    let dateStr := goTrim (selText d (selEq cells 3))
    let date := tryFormats [parseDMYdot, parseDMYdotShort, parseYMDdash] dateStr zeroDate
    if title ≠ "" then
      acc ++ [{ Date := date, Title := title, URL := url, RiskLevel := riskLevel, Author := author }]
    else acc
  else acc

/-- `Parser.ParseCveDetailPage` after the `goquery` parse.  (The Go
field named `Type` is called `CweType` here because `Type` is reserved
in Lean.)  The `[onclick]` presence selector is expressed as an
`[onclick*='']` substring test, which holds exactly when the attribute
is present. -/
def ParseCveDetailPageDoc (d : HDoc) : CveDetail :=
  let cveID := goTrim (selText d (selFirst (selFind d [0]
    [.desc (selTag "h1"), .desc (selTag "strong")])))
  let dates := (selFind d [0] [.desc (selTag "center"), .child (selTag "b")]).foldl
    (cveDatesStep d) (zeroDate, zeroDate)
  let descr := goTrim (selText d (selFind d
    (selNext d (selClosest d
      (selFind d [0] [.desc ⟨some "td", [], [], [], some "Description:"⟩]) (selTag "tr")))
    [.desc (selTag "td"), .desc (selTag "h6")]))
  let cweType := goTrim (selText d (selFind d
    (selParent d (selFind d [0] [.desc ⟨some "b", [], [], [], some "Type:"⟩]))
    [.desc ⟨some "a", [], [], [("href", "/cwe/")], none⟩]))
  let cvssTable := selClosest d
    (selFind d [0] [.desc ⟨some "b", [], [], [], some "CVSS Base Score"⟩]) (selTag "table")
  let cvssDataRow := selEq (selFind d cvssTable [.desc (selTag "tr")]) 1
  let cvssCells := selFind d cvssDataRow [.desc (selTag "td")]
  let scores :=
    if cvssDataRow.length > 0 && cvssCells.length ≥ 3 then
      (cvssScoreOf (selText d (selFind d (selEq cvssCells 0) [.desc (selTagCls "span" "label")])),
       cvssScoreOf (selText d (selFind d (selEq cvssCells 1) [.desc (selTagCls "span" "label")])),
       cvssScoreOf (selText d (selFind d (selEq cvssCells 2) [.desc (selTagCls "span" "label")])))
    else ((0 : ℚ), (0 : ℚ), (0 : ℚ))
  let attrTable := selClosest d
    (selFind d [0] [.desc ⟨some "b", [], [], [], some "Exploit range"⟩]) (selTag "table")
  let attrTrs := selFind d attrTable [.desc (selTag "tr")]
  let headers1 := (selFind d (selEq attrTrs 0) [.desc (selTag "td"), .desc (selTag "b")]).map
    (fun i => goTrim (textOf d i))
  let vals1 := (selFind d (selEq attrTrs 1) [.desc (selTag "td"), .desc (selTag "h6")]).map
    (fun i => goTrim (textOf d i))
  let headers2 :=
    if attrTrs.length ≥ 3 then
      (selFind d (selEq attrTrs 2) [.desc (selTag "td"), .desc (selTag "b")]).map
        (fun i => goTrim (textOf d i))
    else []
  let vals2 :=
    if attrTrs.length ≥ 3 && attrTrs.length ≥ 4 then
      (selFind d (selEq attrTrs 3) [.desc (selTag "td"), .desc (selTag "h6")]).map
        (fun i => goTrim (textOf d i))
    else []
  let assigns := headers1.zip vals1 ++ headers2.zip vals2
  let affectedTables := (selFind d [0] [.desc sTableStriped]).filter (fun t =>
    (selFind d [t] [.desc (selTag "th")]).any (fun th =>
      goContains (textOf d th) "Affected software"))
  let affected := (selFind d affectedTables [.desc (selTag "tbody"), .desc (selTag "tr")]).foldl
    (affectedRow d) []
  let refs := (selFind d
    (selNext d (selClosest d
      (selFind d [0] [.desc ⟨some "td", [], [], [], some "References:"⟩]) (selTag "tr")))
    [.desc (selTag "td"), .desc ⟨some "div", [], [], [("onclick", "")], none⟩]).foldl
    (fun acc i =>
      match findWindowOpen (selAttrD d [i] "onclick") with
      | some cap =>
        let link := goTrim cap
        if link ≠ "" && goHasPre link "http" then acc ++ [link] else acc
      | none => acc) []
  let relatedTables := selFind d
    (selClosest d
      (selFind d [0] [.desc (selTag "td"),
        .child ⟨some "center", [], [], [], some "See advisories in our WLB2 database"⟩])
      (selTag "td"))
    [.desc (selTag "table")]
  let relatedRows := selFind d relatedTables [.desc (selTag "tr")]
  let related :=
    if relatedRows.length > 1 then (relatedRows.drop 1).foldl (cveRelatedRow d) []
    else []
  { CveID := cveID, Published := dates.1, Modified := dates.2,
    Description := descr, CweType := cweType,
    CvssBaseScore := scores.1, CvssImpactScore := scores.2.1, CvssExploitScore := scores.2.2,
    ExploitRange := lastAssign assigns "Exploit range",
    AttackComplexity := lastAssign assigns "Attack complexity",
    Authentication := lastAssign assigns "Authentication",
    ConfidentialityImpact := lastAssign assigns "Confidentiality impact",
    IntegrityImpact := lastAssign assigns "Integrity impact",
    AvailabilityImpact := lastAssign assigns "Availability impact",
    AffectedSoftware := affected, References := refs,
    RelatedVulnerabilities := related }

/-- `Parser.ParseCveDetailPage` on raw text. -/
def ParseCveDetailPage (s : String) (d : HDoc) : Except String CveDetail :=
  if goTrim s = "" then .error "HTML content is empty"
  else .ok (ParseCveDetailPageDoc d)

/-! ## `AuthorParser.Parse` (author-profile page parser) -/

/-- The package-level country-code table of the author parser. -/
def countryCodeMap : List (String × String) :=
  [("XX", "未知"), ("US", "美国"), ("CN", "中国"), ("UK", "英国"),
   ("RU", "俄罗斯"), ("FR", "法国"), ("DE", "德国"), ("JP", "日本"),
   ("CA", "加拿大"), ("AU", "澳大利亚"), ("BR", "巴西"), ("IN", "印度"),
   ("IT", "意大利"), ("ES", "西班牙"), ("NL", "荷兰"), ("SE", "瑞典"),
   ("KR", "韩国"), ("CH", "瑞士")]

/-- The `WLB-` id slice the author parser and the list crawler apply to
a URL: from the marker up to the next `/` or the end of the string;
`none` when the marker is absent. -/
def wlbSlice (url : String) : Option String :=
  (goIndex url "WLB-").map (fun idx => strUntilChar (strDrop url idx) '/')

/-- One author-page vulnerability row: the zero-or-one items the row
contributes. -/
def authorRowItems (d : HDoc) (tr : Nat) : List Vulnerability :=
  let cells := selFind d [tr] [.desc (selTag "td")]
  if cells.length < 3 then []
  else
    let dateStr := goTrim (selText d (selFind d (selEq cells 2) [.desc (selTag "h6")]))
    let date :=
      if dateStr ≠ "" then
        tryFormats [parseYMDdash, parseDMYdot, parseYMDdot] dateStr zeroDate
      else zeroDate
    let titleLink := selFind d (selEq cells 1) [.desc (selTag "h6"), .desc (selTag "a")]
    let title := goTrim (selText d titleLink)
    let url0 := selAttrD d titleLink "href"
    let url := if url0 ≠ "" && !goHasPre url0 "http" then siteOrigin ++ url0 else url0
    let id := if url ≠ "" then (wlbSlice url).getD "" else ""
    let riskLevel := goTrim (selText d (selFind d (selEq cells 0) [.desc (selTagCls "span" "label")]))
    let tags := (selFind d (selEq cells 1)
      [.desc ⟨some "font", [], [("color", "#FF8C00")], [], none⟩]).foldl
      (fun ts i =>
        let tagText := goTrim (textOf d i)
        if tagText ≠ "" then ts ++ [goTrimParens tagText] else ts) []
    let remoteText := selText d (selFind d (selEq cells 1)
      [.desc (selTagCls "div" "col-md-3"), .desc (selTag "h6"), .desc (selTag "u")])
    let isRemote := remoteText ≠ "" && remoteText = "Remote"
    let isLocal := remoteText ≠ "" && remoteText = "Local"
    let v : Vulnerability :=
      { ID := id, Date := date, Title := title, URL := url, RiskLevel := riskLevel,
        IsRemote := isRemote, IsLocal := isLocal, Tags := tags }
    if v.Title ≠ "" then [v] else []

/-- The append step of the author-page vulnerability loop. -/
def authorVulnRow (d : HDoc) (acc : List Vulnerability) (tr : Nat) : List Vulnerability :=
  acc ++ authorRowItems d tr

/-- The contact-field switch over `.jumbotron h4 small.text-muted`
elements (first matching marker wins per element; later elements
overwrite earlier ones). -/
def authorContactsStep (d : HDoc) (acc : String × String × String × String) (i : Nat) :
    String × String × String × String :=
  let text := textOf d i
  if goContains text "Twitter" then
    (goTrim (goTrimPre text "- Twitter Link"), acc.2.1, acc.2.2.1, acc.2.2.2)
  else if goContains text "Website" then
    (acc.1, goTrim (goTrimPre text "- Website Link"), acc.2.2.1, acc.2.2.2)
  else if goContains text "Zone-H" then
    (acc.1, acc.2.1, goTrim (goTrimPre text "- Zone-H Link"), acc.2.2.2)
  else if goContains text "Description" then
    (acc.1, acc.2.1, acc.2.2.1, goTrim (goTrimPre text "- Description of profile"))
  else acc

/-- `AuthorParser.Parse` over the parsed document; the Go function
returns a nil error unconditionally. -/
def authorParse (d : HDoc) : AuthorProfile :=
  let name := goTrim (selText d (selFirst (selFind d [0] [.desc (selTag "h1")])))
  let countryImg := selFirst (selFind d [0]
    [.desc ⟨some "img", [], [], [("src", "flags/")], none⟩])
  let countryCode :=
    if countryImg.isEmpty then ""
    else
      match findFlagsCode (selAttrD d countryImg "src") with
      | some cap => goToUpper cap
      | none => ""
  let country := ((countryCodeMap.find? (fun p => p.1 = countryCode)).map (·.2)).getD "未知"
  let researchText := selText d (selFind d [0]
    [.desc ⟨some "h4", [], [], [], some "Reported research:"⟩])
  let reported :=
    match findDigitRun researchText with
    | some ds => digitsToNat ds.data
    | none => 0
  let contacts := (selFind d [0]
    [.desc (selCls "jumbotron"), .desc (selTag "h4"), .desc (selTagCls "small" "text-muted")]).foldl
    (authorContactsStep d) ("", "", "", "")
  let vulns := (selFind d [0] [.desc sTableStriped, .desc (selTag "tr")]).drop 1
    |>.foldl (authorVulnRow d) []
  let m := minePagination d
  { Name := name, Country := country, CountryCode := countryCode,
    ReportedCount := reported,
    Twitter := contacts.1, Website := contacts.2.1,
    ZoneH := contacts.2.2.1, Description := contacts.2.2.2,
    Vulnerabilities := vulns,
    CurrentPage := minedCurrentPage m.2.1,
    TotalPages := minedTotalPages m.1 m.2.2 }

/-! ## `Client.GetPage` and `Client.doRequest` (`pkg/crawler/client.go`)

One call of `doRequest` is driven by what the network returns for that
attempt: a transport error, a body-read error, or a status/body pair.
`GetPage` is given the outcome of every (potential) attempt as a
function of the attempt number, and is modelled together with the trace
of its observable effects (sleeps and request attempts). -/

/-- What `http.Client.Do` plus `io.ReadAll` yield for one attempt. -/
inductive HttpOutcome where
  | transportErr (e : String)
  | readErr (e : String)
  | response (status : Nat) (body : String)
  deriving Repr

/-- `Client.doRequest` (`client.go` lines 122–158): transport and read
errors propagate; a 5xx status becomes an error; any other status
returns the body text as-is. -/
def doRequest (o : HttpOutcome) : Except String String :=
  match o with
  | .transportErr e => .error e
  | .readErr e => .error e
  | .response st body =>
    if 500 ≤ st ∧ st < 600 then .error ("服务器错误: " ++ toString st)
    else .ok body

/-- Observable side effects of `GetPage`. -/
inductive FetchEvent where
  | sleep (ms : Nat)
  | attempt (k : Nat)
  deriving DecidableEq, Repr

/-- The retry-relevant `Client` configuration. -/
structure ClientCfg where
  baseURL : String
  maxRetries : Nat
  retryDelay : Nat
  deriving Repr

/-- The retry loop of `GetPage` (`client.go` lines 103–118): attempts
`k, k+1, …` with `n` retries left after attempt `k`; every attempt
after the first is preceded by a `retryDelay` sleep, the first success
returns its body, and after the final failure the last error is
returned. -/
def getPageAux (env : Nat → HttpOutcome) (delay : Nat) (k : Nat) :
    Nat → Except String String × List FetchEvent
  | 0 =>
    let ev := (if k > 0 then [FetchEvent.sleep delay] else []) ++ [FetchEvent.attempt k]
    (doRequest (env k), ev)
  | n + 1 =>
    let ev := (if k > 0 then [FetchEvent.sleep delay] else []) ++ [FetchEvent.attempt k]
    match doRequest (env k) with
    | .ok b => (.ok b, ev)
    | .error _ =>
      let r := getPageAux env delay (k + 1) n
      (r.1, ev ++ r.2)

/-- `Client.GetPage` (`client.go` lines 97–119): fatal configuration
error on a missing base URL, otherwise the retry loop over
`maxRetries + 1` potential attempts. -/
def GetPage (cfg : ClientCfg) (env : Nat → HttpOutcome) :
    Except String String × List FetchEvent :=
  if cfg.baseURL = "" then (.error "baseURL未设置", [])
  else getPageAux env cfg.retryDelay 0 cfg.maxRetries

/-- Number of request attempts recorded in a trace. -/
def countAttempts (tr : List FetchEvent) : Nat :=
  (tr.filter (fun e => match e with | .attempt _ => true | _ => false)).length

/-- Shape of the trace after attempt `k - 1`: a repetition of
(`sleep delay`, `attempt k`) pairs with consecutively numbered
attempts. -/
def tailShape (delay : Nat) : List FetchEvent → Nat → Bool
  | [], _ => true
  | .sleep d :: .attempt j :: rest, k => d = delay && j = k && tailShape delay rest (k + 1)
  | _, _ => false

/-- A complete `GetPage` trace: attempt `0` first (no sleep before it),
then a `sleep delay` immediately before every retry attempt
`1, 2, …` in order. -/
def traceShape (delay : Nat) (tr : List FetchEvent) : Bool :=
  match tr with
  | .attempt 0 :: rest => tailShape delay rest 1
  | _ => false

/-! ## The crawl/search facade (`crawler.go`, the search file) -/

/-- The id assignment `CrawlExploit` applies to one listed item
(`crawler.go` lines 285–298): for a nonempty URL containing the
`WLB-` marker, the id is the marker slice up to the next `/` or the
end; otherwise the item is left unchanged (its id stays empty). -/
def assignOne (v : Vulnerability) : Vulnerability :=
  if v.URL ≠ "" then
    match wlbSlice v.URL with
    | some id => { v with ID := id }
    | none => v
  else v

/-- The loop over all items (`crawler.go` lines 286–298). -/
def assignListIds (items : List Vulnerability) : List Vulnerability :=
  items.map assignOne

/-- Uppercase hexadecimal digit. -/
def hexUpper (n : Nat) : Char :=
  if n < 10 then Char.ofNat (48 + n) else Char.ofNat (55 + n)

/-- UTF-8 encoding of one character (code-point arithmetic). -/
def utf8Bytes (c : Char) : List Nat :=
  let n := c.toNat
  if n < 0x80 then [n]
  else if n < 0x800 then [0xC0 + n / 64, 0x80 + n % 64]
  else if n < 0x10000 then [0xE0 + n / 4096, 0x80 + n / 64 % 64, 0x80 + n % 64]
  else [0xF0 + n / 262144, 0x80 + n / 4096 % 64, 0x80 + n / 64 % 64, 0x80 + n % 64]

/-- Go `url.QueryEscape` over the UTF-8 bytes of `s`. -/
def queryEscape (s : String) : String :=
  (s.data.foldr (fun c acc => utf8Bytes c ++ acc) []).foldl (fun acc b =>
    if b = 32 then acc ++ "+"
    else if (48 ≤ b && b ≤ 57) || (65 ≤ b && b ≤ 90) || (97 ≤ b && b ≤ 122) ||
            b = 45 || b = 95 || b = 46 || b = 126 then
      acc.push (Char.ofNat b)
    else
      acc ++ "%" ++ ⟨[hexUpper (b / 16), hexUpper (b % 16)]⟩) ""

/-- The external collaborators of the search facade: the page fetch,
the (never-failing) `goquery` parse, the JSON file write, and the
current date used for the search range. -/
structure CrawlEnv where
  fetch : String → Except String String
  parseHtml : String → HDoc
  save : SearchResult → String → Except String Unit
  nowYear : Nat
  nowMonth : Nat
  nowDay : Nat

/-- Conversion of one listed item into the search-result flavour
(the search file, lines 163–190): a missing id falls back to the URL
suffix from the `WLB-` marker, else to the literal `未知`; a zero date
becomes `未知`. -/
def searchItemOf (item : Vulnerability) : SearchVulnerability :=
  let id :=
    if item.ID ≠ "" then item.ID
    else if item.URL ≠ "" ∧ goContains item.URL "WLB-" = true then
      -- the `getD 0` default is unreachable: containment guarantees an index
      strDrop item.URL ((goIndex item.URL "WLB-").getD 0)
    else "未知"
  let date := if item.Date = zeroDate then "未知" else fmtYMD item.Date
  ⟨id, item.Title, item.URL, date, item.RiskLevel, item.Author, item.AuthorURL⟩

/-- `Crawler.SearchVulnerabilitiesAdvanced` (the search file, lines
121–200): per-page and sort-order coercion, path construction, fetch,
list-page parse, reshaping, and the optional save. -/
def SearchVulnerabilitiesAdvanced (env : CrawlEnv) (keyword : String) (page perPage : Int)
    (sortOrder : String) (outputPath : String) : Except String SearchResult :=
  let endDate := toString env.nowYear ++ "." ++ toString env.nowMonth ++ "." ++ toString env.nowDay
  let pp := if perPage ≠ 10 ∧ perPage ≠ 30 then 10 else perPage
  let so := if sortOrder ≠ "ASC" ∧ sortOrder ≠ "DESC" then "DESC" else sortOrder
  let path := "/search/wlb/" ++ so ++ "/AND/" ++ endDate ++ "." ++ "1999.1.1" ++ "/" ++
    toString page ++ "/" ++ toString pp ++ "/" ++ queryEscape keyword ++ "/"
  match env.fetch path with
  | .error e => .error ("获取搜索结果页面内容失败: " ++ e)
  | .ok htmlContent =>
    match ParseListPage htmlContent (env.parseHtml htmlContent) with
    | .error e => .error ("解析搜索结果页面内容失败: " ++ e)
    | .ok vulnList =>
      let result : SearchResult :=
        { Keyword := keyword, CurrentPage := vulnList.CurrentPage,
          TotalPages := vulnList.TotalPages, SortOrder := so, PerPage := pp,
          Vulnerabilities := vulnList.Items.map searchItemOf }
      if outputPath ≠ "" then
        match env.save result outputPath with
        | .error e => .error ("保存搜索结果失败: " ++ e)
        | .ok _ => .ok result
      else .ok result

/-- `Crawler.SearchVulnerabilities` (the search file, lines 73–76):
delegation to the advanced search with the default page size and sort
order. -/
def SearchVulnerabilities (env : CrawlEnv) (keyword : String) (page : Int)
    (outputPath : String) : Except String SearchResult :=
  SearchVulnerabilitiesAdvanced env keyword page 10 "DESC" outputPath

/-! ## Concrete documents used in the theorems

Each is the `net/html` parse tree of a small HTML input (with the
auto-inserted `html`/`head`/`body` scaffolding and without the
insignificant whitespace text nodes). -/

/-- The parse tree of the spec's malformed non-empty input
`<invalid>html</content>`: the unknown element lands in `body`, the
stray end tag is dropped. -/
def invalidDoc : HDoc :=
  mkDoc [.el "html" [] [.el "head" [] [], .el "body" [] [
    .el "invalid" [] [.txt "html"]]]]

/-- The minimal standard-layout mock list page of the spec: one date
header `2023-06-15` and one row with risk `High`, title `test vuln`
linking `/vuln/123`, tag labels `CVE` and `Remote`, and author `alice`
linking `/author/alice`. -/
def mockListDoc : HDoc :=
  mkDoc [.el "html" [] [.el "head" [] [], .el "body" [] [
    .el "table" [("class", "table-striped")] [
      .el "thead" [] [.el "tr" [] [.el "th" [] [.el "font" [] [.txt "2023-06-15"]]]],
      .el "tbody" [] [.el "tr" [] [
        .el "td" [] [.el "h6" [] [.el "span" [("class", "label")] [.txt "High"]]],
        .el "td" [] [.el "div" [("class", "row")] [
          .el "div" [("class", "col-md-7")] [.el "h6" [] [
            .el "a" [("href", "/vuln/123")] [.txt "test vuln"]]],
          .el "div" [("class", "col-md-5")] [.el "h6" [] [
            .el "span" [("class", "label")] [.txt "CVE"],
            .el "span" [("class", "label")] [.txt "Remote"],
            .el "span" [("class", "label-default")] [
              .el "a" [("href", "/author/alice")] [.txt "alice"]]]]]]]]]]]]

/-- A standard-layout row whose tag column repeats the same free-form
label twice. -/
def dupTagDoc : HDoc :=
  mkDoc [.el "html" [] [.el "head" [] [], .el "body" [] [
    .el "table" [("class", "table-striped")] [
      .el "tbody" [] [.el "tr" [] [
        .el "td" [] [.el "h6" [] [.el "span" [("class", "label")] [.txt "High"]]],
        .el "td" [] [.el "div" [("class", "row")] [
          .el "div" [("class", "col-md-7")] [.el "h6" [] [
            .el "a" [("href", "/vuln/77")] [.txt "dup tags"]]],
          .el "div" [("class", "col-md-5")] [.el "h6" [] [
            .el "span" [("class", "label")] [.txt "Linux"],
            .el "span" [("class", "label")] [.txt "Linux"]]]]]]]]]]]

/-- An empty striped table next to an Angular pagination script. -/
def scriptListDoc : HDoc :=
  mkDoc [.el "html" [] [.el "head" [] [], .el "body" [] [
    .el "table" [("class", "table-striped")] [],
    .el "script" [] [
      .txt "$scope.totalItems = 860; $scope.currentPage = 85; $scope.perPage = 60;"]]]]

/-- A CVE detail page whose related-vulnerabilities table links a
relative `/issue/WLB-2020-1` URL. -/
def cveRelatedDoc : HDoc :=
  mkDoc [.el "html" [] [.el "head" [] [], .el "body" [] [
    .el "table" [] [.el "tr" [] [.el "td" [] [
      .el "center" [] [.txt "See advisories in our WLB2 database"],
      .el "table" [] [
        .el "tr" [] [.el "td" [] [.txt "head"]],
        .el "tr" [] [
          .el "td" [] [.el "span" [("class", "label")] [.txt "High"]],
          .el "td" [] [.el "a" [("href", "/issue/WLB-2020-1")] [.txt "Rel vuln"]],
          .el "td" [] [.txt "bob"],
          .el "td" [] [.txt "15.06.2023"]]]]]]]]]

/-! ## General lemmas -/

/-- Blank-check shape shared by the three extractors. -/
theorem blankGateIsOk {α : Type} (s : String) (v : α) (msg : String) :
    ((if goTrim s = "" then (Except.error msg : Except String α) else .ok v).isOk = false)
      ↔ goTrim s = "" := by
  by_cases h : goTrim s = "" <;> simp [h, Except.isOk, Except.toBool]

/-! ## C1 -/

/-- C1: each of `ParseListPage`, `ParseVulnerabilityDetailPage` and
`ParseCveDetailPage` errors exactly on blank (empty or whitespace-only)
input and returns a record for every non-empty input, however
malformed; on the spec's malformed sample `<invalid>html</content>`
each returns its zero-valued record (every field at its Go zero
value). -/
theorem c1_extractors_blank_error_tolerant :
    ∀ (s : String) (d : HDoc),
      ((ParseListPage s d).isOk = false ↔ goTrim s = "") ∧
      ((ParseVulnerabilityDetailPage s d).isOk = false ↔ goTrim s = "") ∧
      ((ParseCveDetailPage s d).isOk = false ↔ goTrim s = "") ∧
      ParseListPage "<invalid>html</content>" invalidDoc = .ok ⟨[], 0, 0⟩ ∧
      ParseVulnerabilityDetailPage "<invalid>html</content>" invalidDoc = .ok { Tags := [] } ∧
      ParseCveDetailPage "<invalid>html</content>" invalidDoc = .ok {} := by
  intro s d
  refine ⟨blankGateIsOk s _ _, blankGateIsOk s _ _, blankGateIsOk s _ _, ?_, ?_, ?_⟩
  · rfl
  · rfl
  · rfl

/-! ## C3 -/

/-- C3: a single request attempt that obtains an HTTP response fails
exactly when the status code is in the 5xx range; for every other
status code (2xx, 4xx, …) it succeeds with the body text as-is. -/
theorem c3_doRequest_5xx_retryable_else_body :
    ∀ (st : Nat) (body : String),
      ((doRequest (HttpOutcome.response st body)).isOk = false ↔ 500 ≤ st ∧ st < 600) ∧
      (doRequest (HttpOutcome.response st body) = .ok body ↔ ¬(500 ≤ st ∧ st < 600)) := by
  intro st body
  by_cases h : 500 ≤ st ∧ st < 600 <;> simp [doRequest, h, Except.isOk, Except.toBool]

/-! ## C2 -/

/-- Attempts recorded by one loop iteration's events. -/
theorem countAttempts_iter (δ k : Nat) :
    countAttempts ((if k > 0 then [FetchEvent.sleep δ] else []) ++ [FetchEvent.attempt k]) = 1 := by
  by_cases hk : k > 0 <;> simp [hk, countAttempts, List.filter]

/-- Attempt counts add over trace concatenation. -/
theorem countAttempts_append (a b : List FetchEvent) :
    countAttempts (a ++ b) = countAttempts a + countAttempts b := by
  simp [countAttempts, List.filter_append]

/-- The loop starting at attempt `k` with `n` retries left makes at most
`n + 1` attempts. -/
theorem getPageAux_attempts_le (env : Nat → HttpOutcome) (δ : Nat) :
    ∀ (n k : Nat), countAttempts (getPageAux env δ k n).2 ≤ n + 1 := by
  intro n
  induction n with
  | zero =>
    intro k
    simpa [getPageAux] using Nat.le_of_eq (countAttempts_iter δ k)
  | succ n ih =>
    intro k
    cases hreq : doRequest (env k) with
    | ok b => simp [getPageAux, hreq, countAttempts_iter]
    | error e =>
      have := ih (k + 1)
      simp only [getPageAux, hreq]
      rw [countAttempts_append, countAttempts_iter]
      omega

/-- Trace shape of the loop resumed at attempt `k + 1`. -/
theorem getPageAux_tailShape (env : Nat → HttpOutcome) (δ : Nat) :
    ∀ (n k : Nat), tailShape δ (getPageAux env δ (k + 1) n).2 (k + 1) = true := by
  intro n
  induction n with
  | zero =>
    intro k
    simp [getPageAux, tailShape]
  | succ n ih =>
    intro k
    cases hreq : doRequest (env (k + 1)) with
    | ok b => simp [getPageAux, hreq, tailShape]
    | error e =>
      simp only [getPageAux, hreq]
      simpa [tailShape] using ih (k + 1)

/-- Trace shape of the whole loop. -/
theorem getPageAux_traceShape (env : Nat → HttpOutcome) (δ : Nat) :
    ∀ (n : Nat), traceShape δ (getPageAux env δ 0 n).2 = true := by
  intro n
  cases n with
  | zero => simp [getPageAux, traceShape, tailShape]
  | succ n =>
    cases hreq : doRequest (env 0) with
    | ok b => simp [getPageAux, hreq, traceShape, tailShape]
    | error e =>
      simp only [getPageAux, hreq]
      simpa [traceShape] using getPageAux_tailShape env δ n 0

/-- A successful attempt returns its body at once. -/
theorem getPageAux_ok (env : Nat → HttpOutcome) (δ : Nat) (n k : Nat) (b : String)
    (h : doRequest (env k) = .ok b) : (getPageAux env δ k n).1 = .ok b := by
  cases n <;> simp [getPageAux, h]

/-- An error outcome exists behind a false `isOk`. -/
theorem exists_error_of_isOk_false {r : Except String String} (h : r.isOk = false) :
    ∃ e, r = .error e := by
  cases r with
  | error e => exact ⟨e, rfl⟩
  | ok b => simp [Except.isOk, Except.toBool] at h

/-- The body of the first successful attempt is returned. -/
theorem getPageAux_firstSuccess (env : Nat → HttpOutcome) (δ : Nat) :
    ∀ (m n k : Nat) (b : String), m ≤ n →
      (∀ j, j < m → (doRequest (env (k + j))).isOk = false) →
      doRequest (env (k + m)) = .ok b → (getPageAux env δ k n).1 = .ok b := by
  intro m
  induction m with
  | zero =>
    intro n k b _ _ hok
    exact getPageAux_ok env δ n k b (by simpa using hok)
  | succ m ih =>
    intro n k b hmn hfail hok
    have h0 : (doRequest (env k)).isOk = false := by simpa using hfail 0 (Nat.succ_pos m)
    obtain ⟨e, he⟩ := exists_error_of_isOk_false h0
    cases n with
    | zero => omega
    | succ n =>
      simp only [getPageAux, he]
      refine ih n (k + 1) b (by omega) ?_ ?_
      · intro j hj
        have := hfail (j + 1) (by omega)
        simpa [Nat.add_assoc, Nat.add_comm 1 j] using this
      · simpa [Nat.add_assoc, Nat.add_comm 1 m] using hok

/-- When every attempt fails, the last attempt's error is returned. -/
theorem getPageAux_allFail (env : Nat → HttpOutcome) (δ : Nat) :
    ∀ (n k : Nat), (∀ j, j ≤ n → (doRequest (env (k + j))).isOk = false) →
      (getPageAux env δ k n).1 = doRequest (env (k + n)) := by
  intro n
  induction n with
  | zero => intro k _; simp [getPageAux]
  | succ n ih =>
    intro k hfail
    have h0 : (doRequest (env k)).isOk = false := by simpa using hfail 0 (Nat.zero_le _)
    obtain ⟨e, he⟩ := exists_error_of_isOk_false h0
    simp only [getPageAux, he]
    have hrec := ih (k + 1) (fun j hj => by
      have := hfail (j + 1) (by omega)
      simpa [Nat.add_assoc, Nat.add_comm 1 j] using this)
    have harg : k + 1 + n = k + (n + 1) := by omega
    rw [hrec, harg]

/-- C2: with a configured base URL, `GetPage` makes at most
`maxRetries + 1` attempts; its effect trace is attempt `0` followed by
a `retryDelay` sleep immediately before each retry attempt `1, 2, …`;
the body of the first successful attempt is returned; and when every
attempt fails, the returned error is the last attempt's. -/
theorem c2_getPage_bounded_retry (cfg : ClientCfg) (env : Nat → HttpOutcome)
    (h : cfg.baseURL ≠ "") :
    countAttempts (GetPage cfg env).2 ≤ cfg.maxRetries + 1 ∧
    traceShape cfg.retryDelay (GetPage cfg env).2 = true ∧
    (∀ (m : Nat) (b : String), m ≤ cfg.maxRetries →
      (∀ j, j < m → (doRequest (env j)).isOk = false) →
      doRequest (env m) = .ok b → (GetPage cfg env).1 = .ok b) ∧
    ((∀ j, j ≤ cfg.maxRetries → (doRequest (env j)).isOk = false) →
      (GetPage cfg env).1 = doRequest (env cfg.maxRetries)) := by
  simp only [GetPage, if_neg h]
  refine ⟨getPageAux_attempts_le env cfg.retryDelay cfg.maxRetries 0,
    getPageAux_traceShape env cfg.retryDelay cfg.maxRetries, ?_, ?_⟩
  · intro m b hm hfail hok
    exact getPageAux_firstSuccess env cfg.retryDelay m cfg.maxRetries 0 b hm
      (by simpa using hfail) (by simpa using hok)
  · intro hfail
    simpa using getPageAux_allFail env cfg.retryDelay cfg.maxRetries 0
      (fun j hj => by simpa using hfail j hj)

/-- Default-configured client for the C2 witness. -/
def c2cfg : ClientCfg := ⟨"https://cxsecurity.com", 3, 500⟩

/-- An environment whose first two attempts hit transport errors and
whose third succeeds. -/
def c2env : Nat → HttpOutcome :=
  fun k => if k < 2 then .transportErr "connect timeout" else .response 200 "page body"

/-- C2 witness: the retry contract discharged at a concrete client and
attempt environment. -/
theorem c2_getPage_bounded_retry_witness :
    c2cfg.baseURL ≠ "" ∧
    (countAttempts (GetPage c2cfg c2env).2 ≤ c2cfg.maxRetries + 1 ∧
     traceShape c2cfg.retryDelay (GetPage c2cfg c2env).2 = true ∧
     (∀ (m : Nat) (b : String), m ≤ c2cfg.maxRetries →
       (∀ j, j < m → (doRequest (c2env j)).isOk = false) →
       doRequest (c2env m) = .ok b → (GetPage c2cfg c2env).1 = .ok b) ∧
     ((∀ j, j ≤ c2cfg.maxRetries → (doRequest (c2env j)).isOk = false) →
       (GetPage c2cfg c2env).1 = doRequest (c2env c2cfg.maxRetries))) :=
  ⟨by decide, c2_getPage_bounded_retry c2cfg c2env (by decide)⟩

/-! ## C5 -/

/-- C5: every successful `SearchVulnerabilitiesAdvanced` call carries in
its result metadata exactly the coerced parameters: `perPage` becomes
`10` unless it is `10` or `30`, and `sortOrder` becomes `"DESC"` unless
it is `"ASC"` or `"DESC"`; in particular the stored values are always
in the valid sets. -/
theorem c5_search_coerces_perPage_sortOrder (env : CrawlEnv) (keyword : String)
    (page perPage : Int) (sortOrder : String) (outputPath : String) (r : SearchResult)
    (h : SearchVulnerabilitiesAdvanced env keyword page perPage sortOrder outputPath =
      .ok r) :
    r.PerPage = (if perPage ≠ 10 ∧ perPage ≠ 30 then (10 : Int) else perPage) ∧
    r.SortOrder = (if sortOrder ≠ "ASC" ∧ sortOrder ≠ "DESC" then "DESC" else sortOrder) ∧
    (perPage ≠ 10 ∧ perPage ≠ 30 → r.PerPage = 10) ∧
    (sortOrder ≠ "ASC" ∧ sortOrder ≠ "DESC" → r.SortOrder = "DESC") ∧
    (r.PerPage = 10 ∨ r.PerPage = 30) ∧
    (r.SortOrder = "ASC" ∨ r.SortOrder = "DESC") := by
  have key : r.PerPage = (if perPage ≠ 10 ∧ perPage ≠ 30 then (10 : Int) else perPage) ∧
      r.SortOrder = (if sortOrder ≠ "ASC" ∧ sortOrder ≠ "DESC" then "DESC" else sortOrder) := by
    simp only [SearchVulnerabilitiesAdvanced] at h
    split at h
    · simp at h
    · split at h
      · simp at h
      · split at h
        · split at h
          · simp at h
          · simp only [Except.ok.injEq] at h
            subst h
            exact ⟨rfl, rfl⟩
        · simp only [Except.ok.injEq] at h
          subst h
          exact ⟨rfl, rfl⟩
  obtain ⟨k1, k2⟩ := key
  refine ⟨k1, k2, ?_, ?_, ?_, ?_⟩
  · intro hc; simp [k1, hc]
  · intro hc; simp [k2, hc]
  · by_cases hc : perPage ≠ 10 ∧ perPage ≠ 30
    · left; simp [k1, hc]
    · rw [k1, if_neg hc]
      rcases Decidable.not_and_iff_or_not.mp hc with h10 | h30
      · left; simpa using h10
      · right; simpa using h30
  · by_cases hc : sortOrder ≠ "ASC" ∧ sortOrder ≠ "DESC"
    · right; simp [k2, hc]
    · rw [k2, if_neg hc]
      rcases Decidable.not_and_iff_or_not.mp hc with ha | hd
      · left; simpa using ha
      · right; simpa using hd

/-- The concrete environment of the C5 witness: a fetch that returns a
fixed page, a parse to the malformed-sample document, a successful
save, and a fixed current date. -/
def c5env : CrawlEnv :=
  ⟨fun _ => .ok "<html></html>", fun _ => invalidDoc, fun _ _ => .ok (), 2023, 6, 15⟩

/-- The result of the C5 witness search call. -/
def c5res : SearchResult :=
  { Keyword := "XSS", CurrentPage := 0, TotalPages := 0, SortOrder := "DESC",
    PerPage := 10, Vulnerabilities := [] }

/-- C5 witness: the coercion contract discharged at the spec's own
sample call `perPage = 20`, `sort = "BAD"`. -/
theorem c5_search_coerces_witness :
    SearchVulnerabilitiesAdvanced c5env "XSS" 1 20 "BAD" "" = .ok c5res ∧
    (c5res.PerPage = (if (20 : Int) ≠ 10 ∧ (20 : Int) ≠ 30 then (10 : Int) else 20) ∧
     c5res.SortOrder = (if "BAD" ≠ "ASC" ∧ "BAD" ≠ "DESC" then "DESC" else "BAD") ∧
     ((20 : Int) ≠ 10 ∧ (20 : Int) ≠ 30 → c5res.PerPage = 10) ∧
     ("BAD" ≠ "ASC" ∧ "BAD" ≠ "DESC" → c5res.SortOrder = "DESC") ∧
     (c5res.PerPage = 10 ∨ c5res.PerPage = 30) ∧
     (c5res.SortOrder = "ASC" ∨ c5res.SortOrder = "DESC")) :=
  ⟨by rfl, c5_search_coerces_perPage_sortOrder c5env "XSS" 1 20 "BAD" "" c5res (by rfl)⟩

/-! ## C4 -/

/-- Script blocks failing the `$scope.totalItems` containment gate
leave the miner state unchanged. -/
theorem mineFold_gate (d : HDoc) :
    ∀ (l : List Nat) (acc : Nat × Nat × Nat),
      (∀ i ∈ l, goContains (textOf d i) "$scope.totalItems" = false) →
      l.foldl (mineScriptStep d) acc = acc := by
  intro l
  induction l with
  | nil => intro acc _; rfl
  | cons i l ih =>
    intro acc hall
    have hi := hall i (List.mem_cons_self i l)
    simp only [List.foldl_cons, mineScriptStep, hi]
    exact ih acc (fun j hj => hall j (List.mem_cons_of_mem i hj))

/-- An unmatched total-items pattern keeps the accumulator's first
component. -/
theorem mineFold_total (d : HDoc) :
    ∀ (l : List Nat) (acc : Nat × Nat × Nat),
      (∀ i ∈ l, findScopeNum "$scope.totalItems" (textOf d i) = none) →
      (l.foldl (mineScriptStep d) acc).1 = acc.1 := by
  intro l
  induction l with
  | nil => intro acc _; rfl
  | cons i l ih =>
    intro acc hall
    have hi := hall i (List.mem_cons_self i l)
    have hrest := fun j hj => hall j (List.mem_cons_of_mem i hj)
    simp only [List.foldl_cons, mineScriptStep]
    by_cases hg : goContains (textOf d i) "$scope.totalItems" = true
    · simp only [hg, if_pos rfl, hi, Option.getD_none]
      exact ih _ hrest
    · simp only [eq_false_of_ne_true hg, Bool.false_eq_true, if_false]
      exact ih _ hrest

/-- An unmatched current-page pattern keeps the accumulator's second
component. -/
theorem mineFold_current (d : HDoc) :
    ∀ (l : List Nat) (acc : Nat × Nat × Nat),
      (∀ i ∈ l, findScopeNum "$scope.currentPage" (textOf d i) = none) →
      (l.foldl (mineScriptStep d) acc).2.1 = acc.2.1 := by
  intro l
  induction l with
  | nil => intro acc _; rfl
  | cons i l ih =>
    intro acc hall
    have hi := hall i (List.mem_cons_self i l)
    have hrest := fun j hj => hall j (List.mem_cons_of_mem i hj)
    simp only [List.foldl_cons, mineScriptStep]
    by_cases hg : goContains (textOf d i) "$scope.totalItems" = true
    · simp only [hg, if_pos rfl, hi, Option.getD_none]
      exact ih _ hrest
    · simp only [eq_false_of_ne_true hg, Bool.false_eq_true, if_false]
      exact ih _ hrest

/-- An unmatched per-page pattern keeps the accumulator's third
component. -/
theorem mineFold_perPage (d : HDoc) :
    ∀ (l : List Nat) (acc : Nat × Nat × Nat),
      (∀ i ∈ l, findScopeNum "$scope.perPage" (textOf d i) = none) →
      (l.foldl (mineScriptStep d) acc).2.2 = acc.2.2 := by
  intro l
  induction l with
  | nil => intro acc _; rfl
  | cons i l ih =>
    intro acc hall
    have hi := hall i (List.mem_cons_self i l)
    have hrest := fun j hj => hall j (List.mem_cons_of_mem i hj)
    simp only [List.foldl_cons, mineScriptStep]
    by_cases hg : goContains (textOf d i) "$scope.totalItems" = true
    · simp only [hg, if_pos rfl, hi, Option.getD_none]
      exact ih _ hrest
    · simp only [eq_false_of_ne_true hg, Bool.false_eq_true, if_false]
      exact ih _ hrest

/-- C4 counterexample: the parse tree of `<invalid>html</content>` has
no matching script assignments at all, yet the mined total-item counter
is `0`, not the claimed default `1`. -/
theorem c4_total_default_counterexample :
    minePagination invalidDoc = (0, 1, 10) ∧ (minePagination invalidDoc).1 ≠ 1 := by
  decide

/-- C4 (amended): an unmatched assignment pattern keeps its default —
`0` for total items (not `1`), `1` for current page, `10` for per page;
`total_pages` is the exact ceiling `⌈total_items / per_page⌉` computed
as `(t + p - 1) / p` when both counters are positive and `1` otherwise;
the parsers publish exactly the clamped mined current page and the
computed total pages; and a document without matching assignments
yields current page `1` and total pages `1` (shown on the author
parser, whose mining block is the cited one). -/
theorem c4_pagination_miner_amended :
    (∀ d : HDoc, (∀ i ∈ selFind d [0] [.desc (selTag "script")],
        goContains (textOf d i) "$scope.totalItems" = false) →
      minePagination d = (0, 1, 10)) ∧
    (∀ d : HDoc, (∀ i ∈ selFind d [0] [.desc (selTag "script")],
        findScopeNum "$scope.totalItems" (textOf d i) = none) →
      (minePagination d).1 = 0) ∧
    (∀ d : HDoc, (∀ i ∈ selFind d [0] [.desc (selTag "script")],
        findScopeNum "$scope.currentPage" (textOf d i) = none) →
      (minePagination d).2.1 = 1) ∧
    (∀ d : HDoc, (∀ i ∈ selFind d [0] [.desc (selTag "script")],
        findScopeNum "$scope.perPage" (textOf d i) = none) →
      (minePagination d).2.2 = 10) ∧
    (∀ t p : Nat, 0 < t → 0 < p →
      minedTotalPages t p = (t + p - 1) / p ∧
      t ≤ p * minedTotalPages t p ∧ p * (minedTotalPages t p - 1) < t) ∧
    (∀ t p : Nat, ¬(0 < t ∧ 0 < p) → minedTotalPages t p = 1) ∧
    (∀ d : HDoc,
      (authorParse d).CurrentPage = minedCurrentPage (minePagination d).2.1 ∧
      (authorParse d).TotalPages = minedTotalPages (minePagination d).1 (minePagination d).2.2) ∧
    (authorParse invalidDoc).CurrentPage = 1 ∧
    (authorParse invalidDoc).TotalPages = 1 ∧
    (ParseListPageDoc scriptListDoc).CurrentPage = 85 ∧
    (ParseListPageDoc scriptListDoc).TotalPages = 15 := by
  refine ⟨?_, ?_, ?_, ?_, ?_, ?_, ?_, ?_, ?_, ?_, ?_⟩
  · intro d hall; exact mineFold_gate d _ _ hall
  · intro d hall; exact mineFold_total d _ _ hall
  · intro d hall; exact mineFold_current d _ _ hall
  · intro d hall; exact mineFold_perPage d _ _ hall
  · intro t p ht hp
    have hdm := Nat.div_add_mod (t + p - 1) p
    have hmod : (t + p - 1) % p < p := Nat.mod_lt _ hp
    have htp : minedTotalPages t p = (t + p - 1) / p := by
      simp [minedTotalPages, ht, hp]
    have hml : p * ((t + p - 1) / p - 1) = p * ((t + p - 1) / p) - p :=
      Nat.mul_sub_one p ((t + p - 1) / p) ▸ Nat.mul_sub_one p _ ▸ rfl
    refine ⟨htp, ?_, ?_⟩ <;> rw [htp] <;> omega
  · intro t p h
    rcases Decidable.not_and_iff_or_not.mp h with h1 | h1 <;> simp [minedTotalPages] <;> omega
  · intro d; exact ⟨rfl, rfl⟩
  · decide
  · decide
  · decide
  · decide

/-! ## C8 -/

/-- The de-duplication loop produces no duplicates and nothing from the
seen set. -/
theorem dedupGo_nodup :
    ∀ (l seen : List String), (dedupGo seen l).Nodup ∧ ∀ x ∈ dedupGo seen l, x ∉ seen := by
  intro l
  induction l with
  | nil => intro seen; exact ⟨List.nodup_nil, by simp [dedupGo]⟩
  | cons t ts ih =>
    intro seen
    by_cases hm : t ∈ seen
    · simpa [dedupGo, hm] using ih seen
    · obtain ⟨hnd, hseen⟩ := ih (t :: seen)
      refine ⟨?_, ?_⟩
      · simp only [dedupGo, hm, if_false]
        refine List.Nodup.cons ?_ hnd
        intro hmem
        exact (hseen t hmem) (List.mem_cons_self t seen)
      · intro x hx
        simp only [dedupGo, hm, if_false, List.mem_cons] at hx
        rcases hx with rfl | hx
        · exact hm
        · intro hxs
          exact (hseen x hx) (List.mem_cons_of_mem t hxs)

/-- De-duplication keeps a subsequence of the input (first-occurrence
order is preserved). -/
theorem dedupGo_sublist : ∀ (l seen : List String), List.Sublist (dedupGo seen l) l := by
  intro l
  induction l with
  | nil => intro seen; simp [dedupGo]
  | cons t ts ih =>
    intro seen
    by_cases hm : t ∈ seen
    · simp only [dedupGo, hm, if_true]
      exact (ih seen).cons t
    · simp only [dedupGo, hm, if_false]
      exact (ih (t :: seen)).cons₂ t

/-- Every unseen input value survives de-duplication. -/
theorem dedupGo_mem :
    ∀ (l seen : List String) (x : String), x ∈ l → x ∉ seen → x ∈ dedupGo seen l := by
  intro l
  induction l with
  | nil => intro seen x hx _; cases hx
  | cons t ts ih =>
    intro seen x hx hxs
    by_cases hm : t ∈ seen
    · simp only [dedupGo, hm, if_true]
      rcases List.mem_cons.mp hx with rfl | hx2
      · exact absurd hm hxs
      · exact ih seen x hx2 hxs
    · simp only [dedupGo, hm, if_false]
      rcases List.mem_cons.mp hx with rfl | hx2
      · exact List.mem_cons_self x _
      · by_cases hxt : x = t
        · subst hxt; exact List.mem_cons_self x _
        · refine List.mem_cons_of_mem t (ih (t :: seen) x hx2 ?_)
          simp [hxt, hxs]

/-- C8 counterexample: a standard-layout list row whose tag column
repeats `Linux` twice yields a stored record with duplicate `Tags` —
the list extractor never de-duplicates. -/
theorem c8_list_tags_dup_counterexample :
    (ParseListPageDoc dupTagDoc).Items.map (fun v => v.Tags) = [["Linux", "Linux"]] ∧
    ¬ (["Linux", "Linux"] : List String).Nodup := by
  exact ⟨by decide, by decide⟩

/-- C8 (amended): the detail-page extractor's records always carry
duplicate-free `Tags`, produced by `dedup_preserve_order`, which keeps
exactly the distinct input values as a subsequence (first-occurrence
order) and maps `[CVE, Remote, CVE]` to `[CVE, Remote]`; the list-page
extractor appends row tags without de-duplication, so its records can
carry duplicates. -/
theorem c8_tags_dedup_amended :
    (∀ d : HDoc, (ParseVulnerabilityDetailPageDoc d).Tags.Nodup) ∧
    (∀ l : List String, (dedupTags l).Nodup ∧ List.Sublist (dedupTags l) l ∧
      (∀ x, x ∈ dedupTags l ↔ x ∈ l)) ∧
    dedupTags ["CVE", "Remote", "CVE"] = ["CVE", "Remote"] := by
  refine ⟨?_, ?_, by decide⟩
  · intro d
    have hT : (ParseVulnerabilityDetailPageDoc d).Tags = dedupTags (detailOtherTags d) := rfl
    rw [hT]
    exact (dedupGo_nodup (detailOtherTags d) []).1
  · intro l
    refine ⟨(dedupGo_nodup l []).1, dedupGo_sublist l [], ?_⟩
    intro x
    constructor
    · intro hx; exact (dedupGo_sublist l []).mem hx
    · intro hx; exact dedupGo_mem l [] x hx (by simp)

/-! ## C9 -/

/-- A standard-layout document with two date headers and three rows,
exercising the running-date mechanism. -/
def dateRunDoc : HDoc :=
  mkDoc [.el "html" [] [.el "head" [] [], .el "body" [] [
    .el "table" [("class", "table-striped")] [
      .el "thead" [] [.el "tr" [] [.el "th" [] [.el "font" [] [.txt "2023-06-15"]]]],
      .el "tbody" [] [
        .el "tr" [] [
          .el "td" [] [.el "span" [("class", "label")] [.txt "High"]],
          .el "td" [] [.el "div" [("class", "row")] [
            .el "div" [("class", "col-md-7")] [.el "a" [("href", "/i/1")] [.txt "a1"]]]]],
        .el "tr" [] [
          .el "td" [] [.el "span" [("class", "label")] [.txt "Low"]],
          .el "td" [] [.el "div" [("class", "row")] [
            .el "div" [("class", "col-md-7")] [.el "a" [("href", "/i/2")] [.txt "a2"]]]]]],
      .el "thead" [] [.el "tr" [] [.el "th" [] [.el "font" [] [.txt "2024-01-02"]]]],
      .el "tbody" [] [
        .el "tr" [] [
          .el "td" [] [.el "span" [("class", "label")] [.txt "Med."]],
          .el "td" [] [.el "div" [("class", "row")] [
            .el "div" [("class", "col-md-7")] [.el "a" [("href", "/i/3")] [.txt "a3"]]]]]]]]]]

/-- C9 counterexample: on the spec's minimal mock document the single
extracted item has `Tags = ["CVE"]`, not the claimed
`["CVE", "Remote"]` — the `Remote` label is promoted to the
`is_remote` flag and dropped from the tag list. -/
theorem c9_mock_tags_counterexample :
    (ParseListPageDoc mockListDoc).Items.map (fun v => v.Tags) = [["CVE"]] ∧
    (["CVE"] : List String) ≠ ["CVE", "Remote"] := by
  exact ⟨by decide, by decide⟩

/-- C9 (amended): on the minimal mock document, `ParseListPage` returns
exactly one item with `Date = 2023-06-15` (taken from the running date
set by the group header), `Title = "test vuln"`,
`RiskLevel = "High"`, `Tags = ["CVE"]` with `IsRemote = true`, and
`Author = "alice"`; the running date set by each group header is
attached to every following row until the next header. -/
theorem c9_mock_list_row_amended :
    (ParseListPageDoc mockListDoc).Items =
      [{ ID := "", Date := ⟨2023, 6, 15⟩, Title := "test vuln",
         URL := "https://cxsecurity.com/vuln/123", RiskLevel := "High",
         CVE := "", CWE := "", IsRemote := true, IsLocal := false,
         Tags := ["CVE"], Author := "alice",
         AuthorURL := "https://cxsecurity.com/author/alice" }] ∧
    (ParseListPageDoc mockListDoc).CurrentPage = 1 ∧
    (ParseListPageDoc mockListDoc).TotalPages = 1 ∧
    (ParseListPageDoc dateRunDoc).Items.map (fun v => (v.Title, v.Date)) =
      [("a1", ⟨2023, 6, 15⟩), ("a2", ⟨2023, 6, 15⟩), ("a3", ⟨2024, 1, 2⟩)] := by
  exact ⟨by decide, by decide, by decide, by decide⟩

/-! ## C6 and C7 helper lemmas -/

/-- Anything appended to `siteOrigin` has the `http` prefix. -/
theorem goHasPre_origin (x : String) : goHasPre (siteOrigin ++ x) "http" = true := rfl

/-- Anything appended to `siteOrigin ++ "/"` has the `http` prefix. -/
theorem goHasPre_origin_slash (x : String) :
    goHasPre (siteOrigin ++ "/" ++ x) "http" = true := rfl

/-- An `http`-prefixed URL is left unchanged by `absolutize`. -/
theorem fixURL_http (u : String) (hu : goHasPre u "http" = true) : fixURL u = u := by
  rw [fixURL, if_neg]
  intro hc
  rw [hu] at hc
  exact Bool.noConfusion hc.2

/-- `absolutize` is idempotent: fixing an already-fixed URL changes
nothing. -/
theorem fixURL_idem (u : String) : fixURL (fixURL u) = fixURL u := by
  by_cases h1 : u ≠ "" ∧ goHasPre u "http" = false
  · have hfix : fixURL u =
        if goHasPre u "/" then siteOrigin ++ u else siteOrigin ++ "/" ++ u := by
      rw [fixURL, if_pos h1]
    rw [hfix]
    cases hs : goHasPre u "/" with
    | true =>
      rw [if_pos rfl]
      exact fixURL_http _ (goHasPre_origin u)
    | false =>
      rw [if_neg (by simp)]
      exact fixURL_http _ (goHasPre_origin_slash u)
  · have hfix : fixURL u = u := by rw [fixURL, if_neg h1]
    rw [hfix]
    exact hfix

/-- The tag-handling step never touches the URL, author URL or id. -/
theorem stdTagStep_URL (d : HDoc) (v : Vulnerability) (t : Nat) :
    (stdTagStep d v t).URL = v.URL := by
  simp only [stdTagStep]
  repeat' split
  all_goals rfl

/-- The tag-handling step never touches the author URL. -/
theorem stdTagStep_AuthorURL (d : HDoc) (v : Vulnerability) (t : Nat) :
    (stdTagStep d v t).AuthorURL = v.AuthorURL := by
  simp only [stdTagStep]
  repeat' split
  all_goals rfl

/-- The tag-handling step never touches the id. -/
theorem stdTagStep_ID (d : HDoc) (v : Vulnerability) (t : Nat) :
    (stdTagStep d v t).ID = v.ID := by
  simp only [stdTagStep]
  repeat' split
  all_goals rfl

/-- The tag loop never touches the URL. -/
theorem tagFold_URL (d : HDoc) (l : List Nat) (v : Vulnerability) :
    (l.foldl (stdTagStep d) v).URL = v.URL := by
  induction l generalizing v with
  | nil => rfl
  | cons t ts ih => rw [List.foldl_cons, ih, stdTagStep_URL]

/-- The tag loop never touches the author URL. -/
theorem tagFold_AuthorURL (d : HDoc) (l : List Nat) (v : Vulnerability) :
    (l.foldl (stdTagStep d) v).AuthorURL = v.AuthorURL := by
  induction l generalizing v with
  | nil => rfl
  | cons t ts ih => rw [List.foldl_cons, ih, stdTagStep_AuthorURL]

/-- The tag loop never touches the id. -/
theorem tagFold_ID (d : HDoc) (l : List Nat) (v : Vulnerability) :
    (l.foldl (stdTagStep d) v).ID = v.ID := by
  induction l generalizing v with
  | nil => rfl
  | cons t ts ih => rw [List.foldl_cons, ih, stdTagStep_ID]

/-- Every standard-layout row item has absolutization fixed points for
its URLs and an empty id. -/
theorem stdRow_fields (d : HDoc) (cur : GoDate) (tr : Nat) :
    ∀ v ∈ stdRow d cur tr,
      v.URL = fixURL v.URL ∧ v.AuthorURL = fixURL v.AuthorURL ∧ v.ID = "" := by
  intro v hv
  simp only [stdRow] at hv
  split at hv
  · cases hv
  · split at hv
    · rcases List.mem_singleton.mp hv with rfl
      refine ⟨?_, ?_, ?_⟩
      · show (List.foldl (stdTagStep d) _ _).URL = fixURL (List.foldl (stdTagStep d) _ _).URL
        rw [tagFold_URL]
        exact (fixURL_idem _).symm
      · show fixURL _ = fixURL (fixURL _)
        exact (fixURL_idem _).symm
      · show (List.foldl (stdTagStep d) _ _).ID = ""
        rw [tagFold_ID]
    · cases hv

/-- Every search-layout row item has absolutization fixed points for
its URLs and an empty id. -/
theorem searchRow_fields (d : HDoc) (tr : Nat) :
    ∀ v ∈ searchRow d tr,
      v.URL = fixURL v.URL ∧ v.AuthorURL = fixURL v.AuthorURL ∧ v.ID = "" := by
  intro v hv
  simp only [searchRow] at hv
  split at hv
  · cases hv
  · split at hv
    · rcases List.mem_singleton.mp hv with rfl
      exact ⟨(fixURL_idem _).symm, (fixURL_idem _).symm, rfl⟩
    · cases hv

/-- Membership in an append-style fold comes from the seed or one row. -/
theorem mem_foldl_append {α β : Type} (g : β → List α) :
    ∀ (l : List β) (acc : List α) (v : α),
      v ∈ l.foldl (fun a x => a ++ g x) acc → v ∈ acc ∨ ∃ x ∈ l, v ∈ g x := by
  intro l
  induction l with
  | nil => intro acc v hv; exact Or.inl hv
  | cons x xs ih =>
    intro acc v hv
    rcases ih (acc ++ g x) v (by simpa using hv) with h | ⟨y, hy, hvy⟩
    · rcases List.mem_append.mp h with h2 | h2
      · exact Or.inl h2
      · exact Or.inr ⟨x, List.mem_cons_self x xs, h2⟩
    · exact Or.inr ⟨y, List.mem_cons_of_mem x hy, hvy⟩

/-- Membership in the standard-layout fold comes from the seed or one
row processed under some running date. -/
theorem mem_stdFold (d : HDoc) :
    ∀ (l : List Nat) (acc : GoDate × List Vulnerability) (v : Vulnerability),
      v ∈ (l.foldl (stdStep d) acc).2 →
      v ∈ acc.2 ∨ ∃ el cur, v ∈ stdRow d cur el := by
  intro l
  induction l with
  | nil => intro acc v hv; exact Or.inl hv
  | cons x xs ih =>
    intro acc v hv
    rcases ih (stdStep d acc x) v hv with h | h
    · by_cases hth : matchesSSel d (selTag "thead") x = true
      · simp only [stdStep, hth, if_pos rfl] at h
        exact Or.inl h
      · simp only [stdStep, hth, Bool.false_eq_true, if_false] at h
        rcases List.mem_append.mp h with h2 | h2
        · exact Or.inl h2
        · exact Or.inr ⟨x, acc.1, h2⟩
    · exact Or.inr h

/-- The stored item list of the list extractor. -/
theorem ParseListPageDoc_Items (d : HDoc) :
    (ParseListPageDoc d).Items =
      if (listTables d).length = 0 then [] else listItems d := by
  unfold ParseListPageDoc
  split <;> rfl

/-- Every item the list extractor stores comes from a standard or
search row. -/
theorem listItems_from_rows (d : HDoc) (v : Vulnerability)
    (hv : v ∈ (ParseListPageDoc d).Items) :
    (∃ el cur, v ∈ stdRow d cur el) ∨ ∃ tr, v ∈ searchRow d tr := by
  rw [ParseListPageDoc_Items] at hv
  split at hv
  · cases hv
  · unfold listItems at hv
    split at hv
    · rcases mem_foldl_append (searchRow d) _ [] v hv with h | ⟨tr, _, hvt⟩
      · cases h
      · exact Or.inr ⟨tr, hvt⟩
    · rcases mem_stdFold d _ (zeroDate, []) v hv with h | h
      · cases h
      · exact Or.inl h

/-- Stored list items always have URL/author-URL absolutization fixed
points and an empty id field. -/
theorem listItems_fields (d : HDoc) (v : Vulnerability)
    (hv : v ∈ (ParseListPageDoc d).Items) :
    v.URL = fixURL v.URL ∧ v.AuthorURL = fixURL v.AuthorURL ∧ v.ID = "" := by
  rcases listItems_from_rows d v hv with ⟨el, cur, h⟩ | ⟨tr, h⟩
  · exact stdRow_fields d cur el v h
  · exact searchRow_fields d tr v h

/-! ## C6 -/

/-- C6 counterexample: the CVE detail extractor stores the
related-vulnerability link `/issue/WLB-2020-1` as found — non-absolute,
and not a fixed point of the absolutization rule. -/
theorem c6_cve_related_relative_counterexample :
    (ParseCveDetailPageDoc cveRelatedDoc).RelatedVulnerabilities.map (fun v => v.URL) =
      ["/issue/WLB-2020-1"] ∧
    goHasPre "/issue/WLB-2020-1" "http" = false ∧
    fixURL "/issue/WLB-2020-1" ≠ "/issue/WLB-2020-1" := by
  exact ⟨by decide, by decide, by decide⟩

/-- C6 (amended): the list extractor absolutizes every stored `url` and
`author_url` exactly once using the fixed origin — an `http`-prefixed
value is kept, a `/`-rooted one gets the origin prepended, anything
else gets origin plus `/`, and the rewrite is idempotent, so every
stored list item is a fixed point; the CVE detail extractor, however,
stores related-vulnerability URLs as found (see the counterexample),
and the detail extractor stores `author_url` as found. -/
theorem c6_absolutize_amended :
    (∀ u : String, goHasPre u "http" = true → fixURL u = u) ∧
    (∀ u : String, u ≠ "" → goHasPre u "http" = false → goHasPre u "/" = true →
      fixURL u = siteOrigin ++ u) ∧
    (∀ u : String, u ≠ "" → goHasPre u "http" = false → goHasPre u "/" = false →
      fixURL u = siteOrigin ++ "/" ++ u) ∧
    (∀ u : String, fixURL (fixURL u) = fixURL u) ∧
    (∀ (d : HDoc) (v : Vulnerability), v ∈ (ParseListPageDoc d).Items →
      v.URL = fixURL v.URL ∧ v.AuthorURL = fixURL v.AuthorURL) := by
  refine ⟨fixURL_http, ?_, ?_, fixURL_idem, ?_⟩
  · intro u hne hu hs
    rw [fixURL, if_pos ⟨hne, hu⟩, if_pos hs]
  · intro u hne hu hs
    rw [fixURL, if_pos ⟨hne, hu⟩, if_neg (by simp [hs])]
  · intro d v hv
    exact ⟨(listItems_fields d v hv).1, (listItems_fields d v hv).2.1⟩

/-- C6 witness: the amended absolutization contract discharged at the
mock list document and concrete URLs of each shape. -/
theorem c6_absolutize_amended_witness :
    fixURL "http://x" = "http://x" ∧
    fixURL "/a" = siteOrigin ++ "/a" ∧
    fixURL "a" = siteOrigin ++ "/" ++ "a" ∧
    fixURL (fixURL "/a") = fixURL "/a" := by
  exact ⟨by decide, by decide, by decide, by decide⟩

/-! ## C7 -/

/-- The id assignment leaves the URL unchanged. -/
theorem assignOne_URL (w : Vulnerability) : (assignOne w).URL = w.URL := by
  unfold assignOne
  split
  · split <;> rfl
  · rfl

/-- The id assignment writes exactly the marker slice, falling back to
the previous id. -/
theorem assignOne_ID (w : Vulnerability) :
    (assignOne w).ID = (wlbSlice w.URL).getD w.ID := by
  unfold assignOne
  by_cases hurl : w.URL ≠ ""
  · rw [if_pos hurl]
    rcases hsl : wlbSlice w.URL with _ | id
    · simp [hsl]
    · simp [hsl]
  · rw [if_neg hurl]
    have hempty : w.URL = "" := not_not.mp (by simpa using hurl)
    rw [hempty]
    rfl

/-- Environment for the C7 counterexample: the fetched page parses to
the mock list document, whose single item's URL has no `WLB-` marker. -/
def c7env : CrawlEnv :=
  ⟨fun _ => .ok "<html>page</html>", fun _ => mockListDoc, fun _ _ => .ok (), 2023, 6, 15⟩

/-- C7 counterexample: a search over a record whose URL lacks the
`WLB-` marker stores the id `未知` («unknown»), not the empty string
the claim requires. -/
theorem c7_search_unknown_id_counterexample :
    (SearchVulnerabilitiesAdvanced c7env "k" 1 10 "DESC" "").map
      (fun r => r.Vulnerabilities.map (fun v => v.ID)) = .ok ["未知"] ∧
    "未知" ≠ "" := by
  exact ⟨rfl, by decide⟩

/-- C7 (amended): the list crawler (after `CrawlExploit` id assignment)
and the author parser derive ids by the claimed rule — the `WLB-`
marker slice up to the next `/` or the end, empty when the marker is
absent; the search extractor instead takes the URL suffix from the
marker to the end of the string (keeping any `/`-tail) and falls back
to the literal `未知` when the marker is absent. -/
theorem c7_id_derivation_amended :
    (∀ (d : HDoc) (v : Vulnerability), v ∈ assignListIds (ParseListPageDoc d).Items →
      v.ID = (wlbSlice v.URL).getD "") ∧
    (∀ (d : HDoc) (v : Vulnerability), v ∈ (authorParse d).Vulnerabilities →
      v.ID = if v.URL ≠ "" then (wlbSlice v.URL).getD "" else "") ∧
    (∀ item : Vulnerability, item.ID = "" → goContains item.URL "WLB-" = false →
      (searchItemOf item).ID = "未知") ∧
    (∀ item : Vulnerability, item.ID = "" → item.URL ≠ "" →
      goContains item.URL "WLB-" = true →
      (searchItemOf item).ID = strDrop item.URL ((goIndex item.URL "WLB-").getD 0)) ∧
    (searchItemOf { URL := "https://cxsecurity.com/issue/WLB-2024-0001/x" }).ID =
      "WLB-2024-0001/x" ∧
    (wlbSlice "https://cxsecurity.com/issue/WLB-2024-0001/x").getD "" = "WLB-2024-0001" := by
  refine ⟨?_, ?_, ?_, ?_, by decide, by decide⟩
  · intro d v hv
    rcases List.mem_map.mp hv with ⟨w, hw, heq⟩
    have hwID : w.ID = "" := (listItems_fields d w hw).2.2
    rw [← heq]
    show (assignOne w).ID = (wlbSlice (assignOne w).URL).getD ""
    rw [assignOne_URL w, assignOne_ID w, hwID]
  · intro d v hv
    rcases mem_foldl_append (authorRowItems d) _ [] v hv with h | ⟨tr, _, hvt⟩
    · cases h
    · simp only [authorRowItems] at hvt
      split at hvt
      · cases hvt
      · split at hvt
        · rcases List.mem_singleton.mp hvt with rfl
          rfl
        · cases hvt
  · intro item hID hc
    simp only [searchItemOf, hID]
    rw [if_neg (by simp), if_neg (by simp [hc])]
  · intro item hID hurl hc
    simp only [searchItemOf, hID]
    rw [if_neg (by simp), if_pos ⟨hurl, hc⟩]

/-! ## C10 -/

/-- C10: `SearchVulnerabilities` returns exactly the result and error of
`SearchVulnerabilitiesAdvanced` called with `perPage = 10` and
`sortOrder = "DESC"`, for every environment, keyword, page and output
path. -/
theorem c10_search_delegates_to_advanced :
    ∀ (env : CrawlEnv) (keyword : String) (page : Int) (outputPath : String),
      SearchVulnerabilities env keyword page outputPath =
        SearchVulnerabilitiesAdvanced env keyword page 10 "DESC" outputPath := by
  intro env keyword page outputPath
  rfl

end CxCrawler
